import Mathlib

/-!
# Verification of the pytikuadapter federated QA aggregator

Shallow embedding of the core of the `pytikuadapter` service and proofs about
it.  The embedded functions are direct translations of the Python source:

* `normalize_text`, `normalize_options`    — `src/database/utils.py`
* `normalize_for_match`, `calculate_match_score`, the matcher —
  `src/providers/matcher.py`
* `answer_match` and the legacy request/answer models — `src/core.py`,
  `src/models.py`
* the provider registry — `src/providers/manager.py`
* provider resolution and the fan-out result handling — `src/main.py`,
  `src/services/routers/search.py`
* the semantic cache store — `src/database/cache_service.py`,
  `src/database/models.py`

Python strings are modelled as Lean `String`/`List Char`; `float` scores are
modelled exactly as `ℚ` (every arithmetic operation the code performs on them
is a ratio of machine integers); fallible code returns `Except PyExc`;
Python `dict`s are modelled as association lists with first-match lookup or,
for the registry, as lookup functions.  The character-level models of
`str.lower` and of the regex class `\w` cover the ASCII range plus the CJK
unified-ideograph block `一`–`鿿` (the ranges exercised by the
service); Python additionally maps and matches rarer Unicode alphanumerics,
which no statement below depends on.
-/

/-- A raised Python exception, as observed by a caller. -/
inductive PyExc where
  | valueError (msg : String)
  | multipleResults
  | generic (msg : String)
deriving DecidableEq, Repr

deriving instance DecidableEq for Except

/-- `str(e)` for the modelled exceptions. -/
def PyExc.str : PyExc → String
  | .valueError m => m
  | .multipleResults => "Multiple rows were found when one or none was required"
  | .generic m => m

/-! ## Character classes (the regex `[^\w一-鿿]` and `\s`) -/

/-- ASCII part of the Python regex class `\w`: letters, digits and the
underscore. -/
def isAsciiWord (c : Char) : Bool :=
  ('a' ≤ c && c ≤ 'z') || ('A' ≤ c && c ≤ 'Z') || ('0' ≤ c && c ≤ '9') || c = '_'

/-- CJK unified ideographs, the explicit range `一-鿿` of the source
regexes. -/
def isCJK (c : Char) : Bool :=
  0x4e00 ≤ c.toNat && c.toNat ≤ 0x9fff

/-- The set of codepoints KEPT by `re.sub(r'[^\w一-鿿]', '', ·)`:
the union of `\w` and the CJK block. -/
def keptChar (c : Char) : Bool :=
  isAsciiWord c || isCJK c

/-- Python regex class `\s` (ASCII part). -/
def isPySpace (c : Char) : Bool :=
  c = ' ' || c = '\t' || c = '\n' || c = '\r' || c = '\x0b' || c = '\x0c'

/-! ## `src/database/utils.py` -/

/-- `normalize_text` from `src/database/utils.py`: guard on the empty string,
lower-case, strip `[^\w一-鿿]`, then strip `\s+`.  The three passes of
the source are kept separate. -/
def normalize_text (s : String) : String :=
  if s = "" then ""
  else
    let lowered := s.data.map Char.toLower
    let step1 := lowered.filter keptChar
    let step2 := step1.filter (fun c => !(isPySpace c))
    ⟨step2⟩

/-- What the specification's words say `normalize_text` does: lowercase, then
remove every codepoint that is not a letter, a digit, or a CJK ideograph.
Used only to compare the spec sentence against the source function. -/
def normalizeTextSpec (s : String) : String :=
  ⟨(s.data.map Char.toLower).filter (fun c => c.isAlpha || c.isDigit || isCJK c)⟩

/-- Stable insertion of `a` into `l`, placing `a` before the first element it
compares `le` to.  Used to model Python's stable ascending `list.sort()` and
the SQL `ORDER BY`. -/
def insertLe (le : α → α → Bool) (a : α) : List α → List α
  | [] => [a]
  | b :: bs => if le a b then a :: b :: bs else b :: insertLe le a bs

/-- Stable ascending sort (model of `list.sort()` / `ORDER BY`). -/
def sortLe (le : α → α → Bool) (l : List α) : List α :=
  l.foldr (insertLe le) []

/-- Codepoint-lexicographic `≤` on character lists: Python's string
comparison. -/
def charsLe : List Char → List Char → Bool
  | [], _ => true
  | _ :: _, [] => false
  | x :: xs, y :: ys => if x = y then charsLe xs ys else decide (x.toNat < y.toNat)

/-- Codepoint-lexicographic `≤` on strings (Python's string comparison). -/
def strLe (a b : String) : Bool :=
  charsLe a.data b.data

/-- `normalize_options` from `src/database/utils.py`: `None` on a falsy input,
otherwise each option normalized and the result sorted. -/
def normalize_options : Option (List String) → Option (List String)
  | none => none
  | some [] => none
  | some opts => some (sortLe strLe (opts.map normalize_text))

/-! ## `src/providers/matcher.py` -/

/-- One step of Python's `str.replace` for a two-character pattern replaced by
one character (the matcher's `replace('以及', '和')`): non-overlapping,
left-to-right. -/
def replacePair (p₁ p₂ r : Char) : List Char → List Char
  | [] => []
  | [x] => [x]
  | x :: y :: rest =>
    if x = p₁ ∧ y = p₂ then r :: replacePair p₁ p₂ r rest
    else x :: replacePair p₁ p₂ r (y :: rest)

/-- `normalize_for_match` from `src/providers/matcher.py`: guard on the empty
string, lower-case, strip `[^\w一-鿿]`, then unify the connecting
particles `与`, `及`, `以及` to `和` by three sequential `str.replace` calls. -/
def normalize_for_match (s : String) : String :=
  if s = "" then ""
  else
    let t := (s.data.map Char.toLower).filter keptChar
    let t := t.map (fun c => if c = '与' then '和' else c)
    let t := t.map (fun c => if c = '及' then '和' else c)
    let t := replacePair '以' '及' '和' t
    ⟨t⟩

/-- Inner loop body of `_longest_common_substring_length`: given the current
character `c` of `s1`, the tail of `s2` and the previous DP row (shifted so
that its head is `prev[j-1]`), produce the tail of the current row. -/
def lcsRowTail (c : Char) : List Char → List Nat → List Nat
  | b :: bs, p :: ps => (if c = b then p + 1 else 0) :: lcsRowTail c bs ps
  | _, _ => []

/-- `max` over a list of naturals starting from an accumulator (the running
`max_len` update of the source's inner loop). -/
def maxAcc (m : Nat) (l : List Nat) : Nat :=
  l.foldl Nat.max m

/-- Outer loop of `_longest_common_substring_length`: one rolling DP row per
character of `s1`, tracking `max_len`. -/
def lcsLoop (s2 : List Char) : List Char → List Nat → Nat → Nat
  | [], _, m => m
  | a :: as, prev, m =>
    let curr := 0 :: lcsRowTail a s2 prev
    lcsLoop s2 as curr (maxAcc m curr)

/-- `_longest_common_substring_length` from `src/providers/matcher.py`. -/
def lcsLength (s1 s2 : List Char) : Nat :=
  if s1 = [] ∨ s2 = [] then 0
  else lcsLoop s2 s1 (List.replicate (s2.length + 1) 0) 0

/-- `calculate_match_score` from `src/providers/matcher.py`.  Scores are
modelled in `ℚ`: every float the source computes is a ratio of integers. -/
def calculate_match_score (answer option : String) : ℚ :=
  if answer = "" ∨ option = "" then 0
  else
    let na := normalize_for_match answer
    let no := normalize_for_match option
    if na = "" ∨ no = "" then 0
    else if na = no then 1
    else if na.data <:+: no.data then
      ((na.data.length : ℚ) / (no.data.length : ℚ)) * (95 / 100)
    else if no.data <:+: na.data then
      ((no.data.length : ℚ) / (na.data.length : ℚ)) * (9 / 10)
    else
      let setA := na.data.toFinset
      let setO := no.data.toFinset
      let inter := (setA ∩ setO).card
      let uni := (setA ∪ setO).card
      if uni = 0 then 0
      else
        let jaccard : ℚ := (inter : ℚ) / (uni : ℚ)
        let lcsRatio : ℚ :=
          (lcsLength na.data no.data : ℚ) / (max na.data.length no.data.length : ℚ)
        jaccard * (4 / 10) + lcsRatio * (6 / 10)

/-! ## Legacy data model (`src/models.py`) and aggregator (`src/core.py`) -/

/-- `models.Srequest` (the fields read by `answer_match`; `token` and `use`
are unused there and omitted). -/
structure Srequest where
  question : String
  options : Option (List String)
  type : Nat
deriving DecidableEq, Repr

/-- `models.AdapterAns`.  `answer` is declared `list[str] | None` in the
source but `answer_match` iterates it, so callers supply a list; the `error`
field is not read by `answer_match`. -/
structure AdapterAns where
  answer : List String
  type : Option Nat
  error : Option String
deriving DecidableEq, Repr

/-- `models.A`, as populated by `answer_match` (every field is assigned
before use, so none is `None` in its output). -/
structure AOld where
  allAnswer : List (List String)
  bestAnswer : List String
  answerKey : List String
  answerKeyText : String
  answerIndex : List Nat
  answerText : String
deriving DecidableEq, Repr

/-- `models.Sresponse` as built by `answer_match`. -/
structure SresponseOld where
  question : String
  options : Option (List String)
  type : Nat
  answer : AOld
deriving DecidableEq, Repr

/-- `TRUE_LIST` from `src/core.py`. -/
def TRUE_LIST : List String :=
  ["正确", "对", "✓", "√", "v", "是", "T", "t", "Y", "y", "中"]

/-- `FALSE_LIST` from `src/core.py`. -/
def FALSE_LIST : List String :=
  ["错误", "错", "✗", "叉", "×", "否", "不对", "不正确", "f", "F", "n", "N", "否定", "不中"]

/-- One increment of the `defaultdict(int)` counter `answer_counts`.  Python
dicts preserve first-insertion order, so the counter is an association list
in insertion order. -/
def bumpCount : List (String × Nat) → String → List (String × Nat)
  | [], k => [(k, 1)]
  | (k', n) :: rest, k =>
    if k' = k then (k', n + 1) :: rest else (k', n) :: bumpCount rest k

/-- Body of the inner loop of `answer_match` (`for j in i.answer`), counting
one answer string `j` of an adapter whose `type` equals the request's. -/
def countAnswer (req : Srequest) (atype : Option Nat)
    (counts : List (String × Nat)) (j : String) : List (String × Nat) :=
  if atype = some 0 ∨ atype = some 1 then
    match req.options with
    | some opts => if j ∈ opts then bumpCount counts j else counts
    | none => bumpCount counts j
  else if atype = some 3 then
    if j ∈ TRUE_LIST then bumpCount counts "对"
    else if j ∈ FALSE_LIST then bumpCount counts "错"
    else counts
  else bumpCount counts j

/-- Body of the outer loop of `answer_match` (`for i in _adapter_ans`):
answers whose `type` differs from the request's are skipped (`continue`),
the rest are appended to `allAnswer` and counted. -/
def answerMatchStep (req : Srequest)
    (st : List (List String) × List (String × Nat)) (i : AdapterAns) :
    List (List String) × List (String × Nat) :=
  if i.type ≠ some req.type then st
  else (st.1 ++ [i.answer], i.answer.foldl (countAnswer req i.type) st.2)

/-- Truthiness of an optional Python list. -/
def truthyList : Option (List α) → Bool
  | some (_ :: _) => true
  | _ => false

/-- The key-building loop of `answer_match` (`for i in allans.answer.bestAnswer`);
`options.index(i)` raises `ValueError` when `i` is not an option.  The strings
are joined with the one-character delimiter `'#'` exactly as in the source. -/
def buildKeys (opts : List String) :
    List String → (List String × String × List Nat × String) →
    Except PyExc (List String × String × List Nat × String)
  | [], acc => .ok acc
  | i :: rest, acc =>
    match opts.findIdx? (fun o => o = i) with
    | none => .error (.valueError (i ++ " is not in list"))
    | some idx =>
      buildKeys opts rest
        (acc.1 ++ [(Char.ofNat (idx + 65)).toString],
         acc.2.1.push (Char.ofNat (idx + 65)),
         acc.2.2.1 ++ [idx],
         if acc.2.2.2 = "" then i else acc.2.2.2 ++ "#" ++ i)

/-- `answer_match` from `src/core.py`.  `max(answer_counts.values())` raises
`ValueError` on an empty counter, modelled by the `Except` error. -/
def answer_match (req : Srequest) (adapter_ans : List AdapterAns) :
    Except PyExc SresponseOld :=
  let st := adapter_ans.foldl (answerMatchStep req) ([], [])
  if st.2 = [] then .error (.valueError "max() arg is an empty sequence")
  else
    let mx := maxAcc 0 (st.2.map (fun kv => kv.2))
    let best := (st.2.filter (fun kv => kv.2 = mx)).map (fun kv => kv.1)
    if best ≠ [] ∧ truthyList req.options then
      match buildKeys (req.options.getD []) best ([], "", [], "") with
      | .error e => .error e
      | .ok (keys, keyText, idxs, text) =>
        .ok ⟨req.question, req.options, req.type,
             ⟨st.1, best, keys, keyText, idxs, text⟩⟩
    else
      .ok ⟨req.question, req.options, req.type, ⟨st.1, best, [], "", [], ""⟩⟩

/-! ## New data model (`src/model.py`) -/

/-- `model.Provider`: a request-scoped provider choice.  Config values are
modelled as strings (the code only stores and forwards them). -/
structure Provider where
  name : String
  priority : Option Int
  config : Option (List (String × String))
deriving DecidableEq, Repr

/-- `model.QuestionContent`. -/
structure QuestionContent where
  content : String
  options : Option (List String)
  type : Option Nat
deriving DecidableEq, Repr

/-- `model.A`: one adapter's normalized answer. -/
structure AnsA where
  provider : Option String
  type : Option Nat
  choice : Option (List String)
  judgement : Option Bool
  text : Option (List String)
  success : Bool
  error_type : Option String
  error_message : Option String
deriving DecidableEq, Repr

/-- The closed error taxonomy of the adapter boundary (spec §7 and the
`error_type` field documentation in `src/model.py`). -/
def errorKinds : List String :=
  ["config_error", "api_error", "network_error", "parse_error",
   "match_error", "cache_miss", "unknown"]

/-! ## Provider registry (`src/providers/manager.py`) -/

/-- A concrete adapter class.  `clsId` distinguishes two distinct classes
that may carry the same `name`. -/
structure AdapterCls where
  name : String
  clsId : Nat
deriving DecidableEq, Repr

/-- `ProviderRegistry`: the two dicts `_list` (classes) and `_achievelist`
(singleton instances, modelled by their class).  Python dicts are modelled as
lookup functions. -/
structure ProviderRegistry where
  list : String → Option AdapterCls
  achieve : String → Option AdapterCls

/-- The empty registry (`ProviderRegistry.__init__`). -/
def ProviderRegistry.empty : ProviderRegistry :=
  ⟨fun _ => none, fun _ => none⟩

/-- `ProviderRegistry.register`: unconditionally assigns
`self._list[plugin_cls.name]` and `self._achievelist[plugin_cls.name]`;
there is no duplicate check. -/
def ProviderRegistry.register (reg : ProviderRegistry) (cls : AdapterCls) :
    ProviderRegistry :=
  ⟨fun n => if n = cls.name then some cls else reg.list n,
   fun n => if n = cls.name then some cls else reg.achieve n⟩

/-- `Providersbase.__init_subclass__`: classes with a falsy `name` are
skipped, every other loaded subclass is registered. -/
def initSubclass (reg : ProviderRegistry) (cls : AdapterCls) : ProviderRegistry :=
  if cls.name = "" then reg else reg.register cls

/-- `Providersbase.search` from `src/providers/manager.py`: the try/except
logs the upstream error and then re-raises it (`raise`), so the caller
observes exactly the outcome of `_search`. -/
def providersbaseSearch (searchResult : Except PyExc AnsA) : Except PyExc AnsA :=
  match searchResult with
  | .ok a => .ok a
  | .error e => .error e

/-! ## Provider resolution (`src/main.py` and `src/services/routers/search.py`) -/

/-- A `token_provider_configs` row as read by the resolvers:
`provider_name`, `enabled`, `config_json`. -/
structure TokenProviderConfig where
  provider_name : String
  enabled : Bool
  config_json : Option (List (String × String))
deriving DecidableEq, Repr

/-- First-match lookup in a config dict. -/
def cfgLookup (c : List (String × String)) (k : String) : Option String :=
  (c.find? (fun kv => kv.1 = k)).map (fun kv => kv.2)

/-- `resolve_providers` from `src/main.py`: a truthy request list is returned
verbatim; otherwise the enabled token configs are used.  No merging happens
on the request path. -/
def resolve_providers (request_providers : List Provider)
    (configs : List TokenProviderConfig) : List Provider :=
  if request_providers ≠ [] then request_providers
  else (configs.filter (fun c => c.enabled)).map
    (fun c => ⟨c.provider_name, some 0, c.config_json⟩)

/-- `_merge_config` from `src/services/routers/search.py`:
`dict(base)` (or `{}` when falsy) updated with `override`.  The dict is
modelled by lookup semantics: override entries shadow base entries. -/
def merge_config (base override : Option (List (String × String))) :
    List (String × String) :=
  let m := match base with
    | some b => b
    | none => []
  match override with
  | some o => o ++ m.filter (fun kv => (cfgLookup o kv.1).isNone)
  | none => m

/-- The dict comprehension
`{c.provider_name: c for c in token_configs if c.enabled}`: later entries
overwrite earlier ones, so lookup scans the enabled configs from the end. -/
def tokenConfigMap (configs : List TokenProviderConfig) (name : String) :
    Option TokenProviderConfig :=
  ((configs.filter (fun c => c.enabled)).reverse).find?
    (fun c => c.provider_name = name)

/-- The per-request-provider branch of `_resolve_providers` from
`src/services/routers/search.py`: merge with the token config when one
exists, else use the request config (or `{}`). -/
def routerResolveOne (configs : List TokenProviderConfig) (req : Provider) :
    Provider :=
  match tokenConfigMap configs req.name with
  | some tc => ⟨req.name, req.priority, some (merge_config tc.config_json req.config)⟩
  | none => ⟨req.name, req.priority, some (merge_config none req.config)⟩

/-- `_resolve_providers` from `src/services/routers/search.py`. -/
def router_resolve_providers (configs : List TokenProviderConfig)
    (request_providers : List Provider) : List Provider :=
  if request_providers = [] then
    (configs.filter (fun c => c.enabled)).map
      (fun c => ⟨c.provider_name, some 0, c.config_json⟩)
  else request_providers.map (routerResolveOne configs)

/-! ## Fan-out result handling (`src/main.py`, step 4 of `search`) -/

/-- The per-result branch of the `search` endpoint's result loop: an
exception from `asyncio.gather(..., return_exceptions=True)` is replaced by
a failure answer with `error_type="unknown"`; any returned answer is kept. -/
def resultToAnswer (qtype : Option Nat) (pname : String)
    (res : Except PyExc AnsA) : AnsA :=
  match res with
  | .error e =>
    ⟨some pname, qtype, none, none, none, false, some "unknown",
     some ("未捕获异常: " ++ e.str)⟩
  | .ok a => a

/-- Step 4 of the `search` endpoint: turn the gathered per-provider results
into the `answers_from_query` list. -/
def processResults (qtype : Option Nat)
    (results : List (String × Except PyExc AnsA)) : List AnsA :=
  results.map (fun pr => resultToAnswer qtype pr.1 pr.2)

/-! ## Cache store (`src/database/models.py`, `src/database/cache_service.py`)

`src/database/models.py` declares the three tables; the `embedding` vector
column is referenced by `cache_service.py` (`Question.embedding`, pgvector
cosine distance) and is included in the row model.  The embedding service is
the spec's black box (text → vector), the DB's cosine distance is an opaque
metric parameter `dist`. -/

/-- A stored vector. -/
abbrev Vec := List ℚ

/-- The embedding service: `embed_query` and `embed_passage`. -/
structure EmbSvc where
  query : String → Vec
  passage : String → Vec

/-- A `questions` row. -/
structure QuestionRow where
  id : Nat
  content : String
  normalized_content : String
  type : Option Nat
  options : Option (List String)
  normalized_options : Option (List String)
  embedding : Option Vec
deriving DecidableEq, Repr

/-- An `answers` row. -/
structure AnswerRow where
  id : Nat
  type : Option Nat
  choice : Option (List String)
  judgement : Option Bool
  text : Option (List String)
deriving DecidableEq, Repr

/-- A `question_provider_answers` row (`config_hash` is never set by
`cache_service.py` and is omitted). -/
structure QPARow where
  question_id : Nat
  provider_name : String
  answer_id : Nat
deriving DecidableEq, Repr

/-- The relational store plus the autoincrement counters. -/
structure Store where
  questions : List QuestionRow
  answers : List AnswerRow
  qpas : List QPARow
  nextQ : Nat
  nextA : Nat
deriving DecidableEq, Repr

/-- `Result.scalar_one_or_none()`: `None` on no row, the row when unique,
`MultipleResultsFound` otherwise. -/
def scalarOne : List α → Except PyExc (Option α)
  | [] => .ok none
  | [a] => .ok (some a)
  | _ :: _ :: _ => .error .multipleResults

/-- `CacheService._find_by_normalized`: exact match on
`(normalized_content, type, normalized_options)`; a `None` request option
set matches only `NULL` stored option sets. -/
def find_by_normalized (s : Store) (content : String) (qt : Option Nat)
    (options : Option (List String)) : Except PyExc (Option QuestionRow) :=
  let nc := normalize_text content
  let no := normalize_options options
  scalarOne (s.questions.filter
    (fun q => q.normalized_content == nc && q.type == qt && q.normalized_options == no))

/-- `CacheService._build_embedding_text`. -/
def build_embedding_text (content : String) (options : Option (List String)) :
    String :=
  let text := content.trim
  match options with
  | some [] => text
  | none => text
  | some opts =>
    let valid := opts.map String.trim
    let optionText := String.intercalate " "
      (valid.enum.map (fun io => (Char.ofNat (65 + io.1)).toString ++ ". " ++ io.2))
    text ++ "\n" ++ optionText

/-- Python's `dist or 0` on a numeric value. -/
def pyOr0 (d : ℚ) : ℚ :=
  if d = 0 then 0 else d

/-- The acceptance scan of `_find_by_embedding` over the top-K candidates:
continue below the similarity threshold, continue on mismatched option
presence or unequal normalized options, else return the candidate. -/
def embedScan (dist : Vec → Vec → ℚ) (v : Vec) (no : Option (List String)) :
    List QuestionRow → Option QuestionRow
  | [] => none
  | q :: rest =>
    let similarity := 1 - pyOr0 (dist v (q.embedding.getD []))
    if similarity ≥ 82 / 100 then
      if q.normalized_options.isSome ≠ no.isSome then embedScan dist v no rest
      else if q.normalized_options.isSome ∧ q.normalized_options ≠ no then
        embedScan dist v no rest
      else some q
    else embedScan dist v no rest

/-- `CacheService._find_by_embedding`: `None` without an embedding service;
otherwise embed the query text, take the K(=5) stored questions of the same
type with a vector, ordered by ascending distance, and scan them. -/
def find_by_embedding (dist : Vec → Vec → ℚ) (esvc : Option EmbSvc) (s : Store)
    (content : String) (qt : Option Nat) (options : Option (List String)) :
    Option QuestionRow :=
  match esvc with
  | none => none
  | some svc =>
    let v := svc.query (build_embedding_text content options)
    let no := normalize_options options
    let cands := s.questions.filter (fun q => q.type == qt && q.embedding.isSome)
    let sorted := sortLe
      (fun a b => decide (dist v (a.embedding.getD []) ≤ dist v (b.embedding.getD [])))
      cands
    embedScan dist v no (sorted.take 5)

/-- `CacheService.find_question`: exact match first, vector similarity on
miss. -/
def find_question (dist : Vec → Vec → ℚ) (esvc : Option EmbSvc) (s : Store)
    (content : String) (qt : Option Nat) (options : Option (List String)) :
    Except PyExc (Option QuestionRow) := do
  match ← find_by_normalized s content qt options with
  | some q => pure (some q)
  | none => pure (find_by_embedding dist esvc s content qt options)

/-- `CacheService._generate_embedding` (passage mode; `None` without a
service). -/
def generate_embedding (esvc : Option EmbSvc) (content : String)
    (options : Option (List String)) : Option Vec :=
  esvc.map (fun svc => svc.passage (build_embedding_text content options))

/-- The answer-lookup condition of `save_answer`/`batch_save_answers`: each
payload field is compared by equality when truthy and against `NULL` when
falsy (`answer.choice if answer.choice else Answer.choice.is_(None)`), with
`judgement` guarded by `is not None`. -/
def answerRowMatches (a : AnsA) (r : AnswerRow) : Bool :=
  r.type == a.type
  && (if truthyList a.choice then r.choice == a.choice else r.choice == none)
  && (if a.judgement.isSome then r.judgement == a.judgement else r.judgement == none)
  && (if truthyList a.text then r.text == a.text else r.text == none)

/-- The answer-row query of the save path. -/
def find_answer (s : Store) (a : AnsA) : Except PyExc (Option AnswerRow) :=
  scalarOne (s.answers.filter (answerRowMatches a))

/-- One iteration of the `for provider, answer in provider_answers` loop of
`batch_save_answers`: find-or-create the `Answer` row, then create the
`(question, provider)` cell or repoint it. -/
def save_pair (qid : Nat) (st : Store) (p : Provider) (a : AnsA) :
    Except PyExc Store := do
  let found ← find_answer st a
  let (aid, st1) : Nat × Store := match found with
    | some r => (r.id, st)
    | none =>
      (st.nextA,
       { st with
         answers := st.answers ++ [⟨st.nextA, a.type, a.choice, a.judgement, a.text⟩],
         nextA := st.nextA + 1 })
  let qpaFound ← scalarOne (st1.qpas.filter
    (fun r => r.question_id == qid && r.provider_name == p.name))
  match qpaFound with
  | none => pure { st1 with qpas := st1.qpas ++ [⟨qid, p.name, aid⟩] }
  | some _ =>
    pure { st1 with
           qpas := st1.qpas.map (fun r =>
             if r.question_id == qid && r.provider_name == p.name then
               { r with answer_id := aid }
             else r) }

/-- `CacheService.batch_save_answers`: find-or-create the `Question` row
(computing its passage embedding on creation), then save every
`(provider, answer)` pair. -/
def batch_save_answers (dist : Vec → Vec → ℚ) (esvc : Option EmbSvc)
    (s : Store) (query : QuestionContent) (pairs : List (Provider × AnsA)) :
    Except PyExc Store := do
  let foundQ ← find_question dist esvc s query.content query.type query.options
  let (qid, s1) : Nat × Store := match foundQ with
    | some q => (q.id, s)
    | none =>
      (s.nextQ,
       { s with
         questions := s.questions ++
           [⟨s.nextQ, query.content, normalize_text query.content, query.type,
             query.options, normalize_options query.options,
             generate_embedding esvc query.content query.options⟩],
         nextQ := s.nextQ + 1 })
  pairs.foldlM (fun st pa => save_pair qid st pa.1 pa.2) s1

/-! ## Keys and invariants of the cache store

The spec's data-model invariants: `(normalized_content, type,
normalized_options)` de-duplicates questions, `(type, choice, judgement,
text)` de-duplicates answers, `(question_id, provider_name)` is unique among
cells. -/

/-- The answer de-duplication key `(type, choice, judgement, text)`. -/
def rowKey (r : AnswerRow) :
    Option Nat × Option (List String) × Option Bool × Option (List String) :=
  (r.type, r.choice, r.judgement, r.text)

/-- The same key read off an in-flight answer. -/
def ansKey (a : AnsA) :
    Option Nat × Option (List String) × Option Bool × Option (List String) :=
  (a.type, a.choice, a.judgement, a.text)

/-- The cell key `(question_id, provider_name)`. -/
def qpaKey (r : QPARow) : Nat × String :=
  (r.question_id, r.provider_name)

/-- A well-formed payload: the list payloads are either absent or non-empty
(an empty list is falsy in Python and is looked up as `NULL` but stored
as `[]`). -/
def okPayload (a : AnsA) : Prop :=
  a.choice ≠ some [] ∧ a.text ≠ some []

/-- Answer rows have pairwise distinct de-duplication keys. -/
def answersWF (l : List AnswerRow) : Prop :=
  l.Pairwise (fun r₁ r₂ => rowKey r₁ ≠ rowKey r₂)

/-- Cells have pairwise distinct `(question_id, provider_name)` keys. -/
def qpasWF (l : List QPARow) : Prop :=
  l.Pairwise (fun r₁ r₂ => qpaKey r₁ ≠ qpaKey r₂)

/-- The answer of the last pair carrying a given provider name. -/
def lastAnswerFor (P : List (Provider × AnsA)) (pname : String) : Option AnsA :=
  (P.reverse.find? (fun pa => pa.1.name = pname)).map (fun pa => pa.2)

/-- The in-place cell update performed by the save loop's `else` branch. -/
def overwriteQpa (qid : Nat) (pname : String) (aid : Nat) (l : List QPARow) :
    List QPARow :=
  l.map (fun r =>
    if r.question_id == qid && r.provider_name == pname then
      { r with answer_id := aid }
    else r)

/-! ## Helper lemmas -/

/-- A string other than `""` has a nonempty character list. -/
theorem data_length_pos_of_ne_empty {s : String} (h : s ≠ "") : 0 < s.data.length := by
  rcases s with ⟨l⟩
  cases l
  · exact absurd rfl h
  · simp

/-- No character kept by the regex class `[^\w一-鿿]` is whitespace, so the
source's final `\s+` pass removes nothing. -/
theorem keptChar_not_space {c : Char} (h : keptChar c = true) : isPySpace c = false := by
  cases hc : isPySpace c
  · rfl
  · exfalso
    have hd := hc
    simp only [isPySpace, Bool.or_eq_true, decide_eq_true_eq] at hd
    rcases hd with ((((rfl | rfl) | rfl) | rfl) | rfl) | rfl <;> exact absurd h (by decide)

/-- Entries of one DP row of the LCS computation are at most one more than the
entries of the previous row. -/
theorem lcsRowTail_le (c : Char) :
    ∀ (bs : List Char) (ps : List Nat) (k : Nat), (∀ p ∈ ps, p ≤ k) →
      ∀ q ∈ lcsRowTail c bs ps, q ≤ k + 1 := by
  intro bs
  induction bs with
  | nil => intro ps k _ q hq; simp [lcsRowTail] at hq
  | cons b bs ih =>
    intro ps k hps q hq
    cases ps with
    | nil => simp [lcsRowTail] at hq
    | cons p ps =>
      simp only [lcsRowTail, List.mem_cons] at hq
      rcases hq with rfl | hq
      · split
        · exact Nat.succ_le_succ (hps p (by simp))
        · omega
      · exact ih ps k (fun x hx => hps x (by simp [hx])) q hq

/-- `maxAcc` is bounded by any bound on the accumulator and the entries. -/
theorem maxAcc_le {M : Nat} :
    ∀ (l : List Nat) (m : Nat), m ≤ M → (∀ q ∈ l, q ≤ M) → maxAcc m l ≤ M := by
  intro l
  induction l with
  | nil => intro m hm _; exact hm
  | cons x xs ih =>
    intro m hm hl
    simp only [maxAcc, List.foldl_cons]
    exact ih (Nat.max m x) (Nat.max_le.mpr ⟨hm, hl x (by simp)⟩)
      (fun q hq => hl q (by simp [hq]))

/-- The running maximum of the LCS DP never exceeds the number of processed
rows plus the bound on the incoming row. -/
theorem lcsLoop_le (s2 : List Char) :
    ∀ (as : List Char) (prev : List Nat) (m k : Nat), (∀ p ∈ prev, p ≤ k) →
      lcsLoop s2 as prev m ≤ max m (k + as.length) := by
  intro as
  induction as with
  | nil => intro prev m k _; simp [lcsLoop]
  | cons a as ih =>
    intro prev m k hprev
    simp only [lcsLoop]
    have hcurr : ∀ q ∈ 0 :: lcsRowTail a s2 prev, q ≤ k + 1 := by
      intro q hq
      rcases List.mem_cons.mp hq with rfl | hq
      · omega
      · exact lcsRowTail_le a s2 prev k hprev q hq
    have hm : maxAcc m (0 :: lcsRowTail a s2 prev) ≤ max m (k + 1) :=
      maxAcc_le _ m (Nat.le_max_left _ _)
        (fun q hq => le_trans (hcurr q hq) (Nat.le_max_right _ _))
    have hrec := ih (0 :: lcsRowTail a s2 prev) (maxAcc m (0 :: lcsRowTail a s2 prev)) (k + 1) hcurr
    simp only [List.length_cons]
    refine le_trans hrec (max_le ?_ ?_)
    · exact le_trans hm (max_le_max (le_refl m) (by omega))
    · exact le_trans (by omega) (le_max_right m (k + (as.length + 1)))

/-- The longest-common-substring length is at most the length of the first
string. -/
theorem lcsLength_le_left (s1 s2 : List Char) : lcsLength s1 s2 ≤ s1.length := by
  unfold lcsLength
  split
  · omega
  · have h := lcsLoop_le s2 s1 (List.replicate (s2.length + 1) 0) 0 0
      (fun p hp => by simp [List.eq_of_mem_replicate hp])
    simpa using h

/-! ## C5 — `normalize_text` -/

/-- C5 (amended): `normalize_text s` is the lowercased form of `s` keeping
exactly the regex class `\w ∪ CJK` — letters, digits, CJK ideographs AND the
underscore; the final whitespace pass removes nothing further, and every
surviving codepoint is in the kept class. -/
theorem c5_normalize_text_keeps_word_chars (s : String) :
    normalize_text s = ⟨(s.data.map Char.toLower).filter keptChar⟩ ∧
    ∀ c ∈ (normalize_text s).data, keptChar c = true := by
  have hcore : normalize_text s = ⟨(s.data.map Char.toLower).filter keptChar⟩ := by
    unfold normalize_text
    split
    · rename_i hs
      subst hs
      rfl
    · show String.mk (((s.data.map Char.toLower).filter keptChar).filter
          (fun c => !(isPySpace c))) = ⟨(s.data.map Char.toLower).filter keptChar⟩
      congr 1
      exact List.filter_eq_self.mpr
        (fun c hc => by
          have hk := List.of_mem_filter hc
          simp [keptChar_not_space hk])
  refine ⟨hcore, fun c hc => ?_⟩
  rw [hcore] at hc
  exact List.of_mem_filter hc

/-- C5 counterexample: the underscore is kept by `normalize_text`
(it belongs to the regex class `\w`), while the spec's wording — remove every
codepoint that is not a letter, digit or CJK ideograph — would delete it. -/
theorem c5_normalize_text_underscore_counterexample :
    normalize_text "a_b" = "a_b" ∧ normalizeTextSpec "a_b" = "ab" ∧
    normalize_text "a_b" ≠ normalizeTextSpec "a_b" :=
  ⟨by decide, by decide, by decide⟩

/-! ## C6 — `calculate_match_score` -/

/-- C6 (amended): every match score lies in `[0, 1]`, and a string scored
against itself scores exactly `1` whenever its normalized form is non-empty
(a string normalizing to the empty string scores `0` against itself). -/
theorem c6_match_score_range_and_identity :
    (∀ a o : String,
      0 ≤ calculate_match_score a o ∧ calculate_match_score a o ≤ 1) ∧
    (∀ s : String, normalize_for_match s ≠ "" → calculate_match_score s s = 1) := by
  constructor
  · intro a o
    simp only [calculate_match_score]
    split_ifs with h1 h2 h3 h4 h5 h6
    · norm_num
    · norm_num
    · norm_num
    · -- `na` is a substring of `no`
      rw [not_or] at h2
      have hlen : (normalize_for_match a).data.length ≤ (normalize_for_match o).data.length :=
        h4.length_le
      have hpos : 0 < (normalize_for_match o).data.length :=
        data_length_pos_of_ne_empty h2.2
      have hq : ((normalize_for_match a).data.length : ℚ) / ((normalize_for_match o).data.length : ℚ) ≤ 1 := by
        rw [div_le_one (by exact_mod_cast hpos)]
        exact_mod_cast hlen
      constructor
      · positivity
      · calc ((normalize_for_match a).data.length : ℚ) / ((normalize_for_match o).data.length : ℚ) * (95 / 100)
            ≤ 1 * (95 / 100) := by
              have h95 : (0 : ℚ) ≤ 95 / 100 := by norm_num
              exact mul_le_mul_of_nonneg_right hq h95
          _ ≤ 1 := by norm_num
    · -- `no` is a substring of `na`
      rw [not_or] at h2
      have hlen : (normalize_for_match o).data.length ≤ (normalize_for_match a).data.length :=
        h5.length_le
      have hpos : 0 < (normalize_for_match a).data.length :=
        data_length_pos_of_ne_empty h2.1
      have hq : ((normalize_for_match o).data.length : ℚ) / ((normalize_for_match a).data.length : ℚ) ≤ 1 := by
        rw [div_le_one (by exact_mod_cast hpos)]
        exact_mod_cast hlen
      constructor
      · positivity
      · calc ((normalize_for_match o).data.length : ℚ) / ((normalize_for_match a).data.length : ℚ) * (9 / 10)
            ≤ 1 * (9 / 10) := by
              have h9 : (0 : ℚ) ≤ 9 / 10 := by norm_num
              exact mul_le_mul_of_nonneg_right hq h9
          _ ≤ 1 := by norm_num
    · norm_num
    · -- Jaccard + LCS combination
      rw [not_or] at h2
      have huni : (0 : ℚ) < (((normalize_for_match a).data.toFinset ∪ (normalize_for_match o).data.toFinset).card : ℚ) := by
        exact_mod_cast Nat.pos_of_ne_zero h6
      have hintc : (((normalize_for_match a).data.toFinset ∩ (normalize_for_match o).data.toFinset).card : ℚ)
          ≤ (((normalize_for_match a).data.toFinset ∪ (normalize_for_match o).data.toFinset).card : ℚ) := by
        exact_mod_cast Finset.card_le_card Finset.inter_subset_union
      have hj : (((normalize_for_match a).data.toFinset ∩ (normalize_for_match o).data.toFinset).card : ℚ)
          / (((normalize_for_match a).data.toFinset ∪ (normalize_for_match o).data.toFinset).card : ℚ) ≤ 1 := by
        rw [div_le_one huni]
        exact hintc
      have hmaxpos : (0 : ℚ) < (max (normalize_for_match a).data.length (normalize_for_match o).data.length : ℚ) := by
        have := data_length_pos_of_ne_empty h2.1
        have hmx : 0 < max (normalize_for_match a).data.length (normalize_for_match o).data.length :=
          lt_of_lt_of_le this (le_max_left _ _)
        exact_mod_cast hmx
      have hlcs : ((lcsLength (normalize_for_match a).data (normalize_for_match o).data : ℚ))
          ≤ (max (normalize_for_match a).data.length (normalize_for_match o).data.length : ℚ) := by
        have := (lcsLength_le_left (normalize_for_match a).data (normalize_for_match o).data).trans
          (le_max_left (normalize_for_match a).data.length (normalize_for_match o).data.length)
        exact_mod_cast this
      have hl : ((lcsLength (normalize_for_match a).data (normalize_for_match o).data : ℚ))
          / (max (normalize_for_match a).data.length (normalize_for_match o).data.length : ℚ) ≤ 1 := by
        rw [div_le_one hmaxpos]
        exact hlcs
      constructor
      · positivity
      · have hja := mul_le_mul_of_nonneg_right hj (by norm_num : (0 : ℚ) ≤ 4 / 10)
        have hla := mul_le_mul_of_nonneg_right hl (by norm_num : (0 : ℚ) ≤ 6 / 10)
        rw [one_mul] at hja hla
        linarith
  · intro s h
    have hs : ¬ s = "" := by
      intro e
      exact h (by simp [e, normalize_for_match])
    simp [calculate_match_score, hs, h]

/-- C6 counterexample: the claim "identical strings score exactly `1.0`"
fails for `"?"`, which normalizes to the empty string and scores `0` against
itself. -/
theorem c6_identity_counterexample :
    calculate_match_score "?" "?" = 0 ∧ (0 : ℚ) ≠ 1 :=
  ⟨by decide, by norm_num⟩

/-- Witness for the hypothesis of `c6_match_score_range_and_identity`:
`"ab"` has a non-empty normalized form and scores exactly `1` against
itself. -/
theorem c6_witness :
    normalize_for_match "ab" ≠ "" ∧ calculate_match_score "ab" "ab" = 1 :=
  ⟨by decide, c6_match_score_range_and_identity.2 "ab" (by decide)⟩

/-! ## C10 — type filtering in the aggregator -/

/-- C10: an adapter answer whose `type` differs from the request's is skipped
by the `continue` in `answer_match`: removing it from the answer list changes
nothing — neither `allAnswer` nor any vote, hence none of `bestAnswer`,
`answerKey`, `answerIndex`, `answerText`. -/
theorem c10_type_mismatch_excluded (req : Srequest) (l₁ l₂ : List AdapterAns)
    (a : AdapterAns) (h : a.type ≠ some req.type) :
    answer_match req (l₁ ++ a :: l₂) = answer_match req (l₁ ++ l₂) := by
  unfold answer_match
  have hfold : (l₁ ++ a :: l₂).foldl (answerMatchStep req) ([], []) =
      (l₁ ++ l₂).foldl (answerMatchStep req) ([], []) := by
    rw [List.foldl_append, List.foldl_append, List.foldl_cons]
    congr 1
    simp [answerMatchStep, h]
  rw [hfold]

/-- Witness for `c10_type_mismatch_excluded`: a multi-choice (`type=1`)
answer contributes nothing to a single-choice (`type=0`) request. -/
theorem c10_witness :
    answer_match ⟨"q", some ["x", "y"], 0⟩
        ([⟨["x"], some 0, none⟩] ++ ⟨["y"], some 1, none⟩ :: [⟨["x"], some 0, none⟩]) =
      answer_match ⟨"q", some ["x", "y"], 0⟩
        ([⟨["x"], some 0, none⟩] ++ [⟨["x"], some 0, none⟩]) :=
  c10_type_mismatch_excluded ⟨"q", some ["x", "y"], 0⟩ [⟨["x"], some 0, none⟩]
    [⟨["x"], some 0, none⟩] ⟨["y"], some 1, none⟩ (by decide)

/-! ## C3 — the answer-text delimiter -/

/-- C3: evaluating the aggregator on two tied single-choice answers shows
`answerText` is joined with the one-character delimiter `'#'`, not the
`'#@#'` documented for `UnifiedAnswer.answerText` in `src/model.py` and in
the spec. -/
theorem c3_delimiter_is_single_hash :
    answer_match ⟨"q", some ["x", "y"], 0⟩
        [⟨["x"], some 0, none⟩, ⟨["y"], some 0, none⟩] =
      .ok ⟨"q", some ["x", "y"], 0,
           ⟨[["x"], ["y"]], ["x", "y"], ["A", "B"], "AB", [0, 1], "x#y"⟩⟩ ∧
    "x#y" ≠ "x" ++ "#@#" ++ "y" :=
  ⟨by decide, by decide⟩

/-! ## C4 — aggregation with no countable answer -/

/-- C4: with no successful answer (an empty adapter list, or one whose only
judgement answer is not on the recognized true/false lists) `answer_match`
raises `ValueError` from `max()` on an empty sequence instead of returning an
empty unified answer. -/
theorem c4_empty_votes_raise :
    answer_match ⟨"q", none, 3⟩ [] =
      .error (.valueError "max() arg is an empty sequence") ∧
    answer_match ⟨"q", none, 3⟩ [⟨["hm"], some 3, none⟩] =
      .error (.valueError "max() arg is an empty sequence") :=
  ⟨by decide, by decide⟩

/-! ## C9 — duplicate adapter names -/

/-- C9 (amended): loading a second concrete adapter class under an existing
name silently replaces the earlier entry in both registry dicts; no check
runs and no startup error is raised. -/
theorem c9_duplicate_name_overwrites (reg : ProviderRegistry)
    (c₁ c₂ : AdapterCls) (hname : c₁.name = c₂.name) (hne : c₂.name ≠ "") :
    (initSubclass (initSubclass reg c₁) c₂).list c₁.name = some c₂ ∧
    (initSubclass (initSubclass reg c₁) c₂).achieve c₁.name = some c₂ := by
  have h1 : c₁.name ≠ "" := by rw [hname]; exact hne
  simp [initSubclass, ProviderRegistry.register, h1, hne, hname]

/-- C9 counterexample: two distinct classes named `"dup"`; registration
succeeds and the later class owns the name. -/
theorem c9_counterexample :
    (initSubclass (initSubclass ProviderRegistry.empty ⟨"dup", 1⟩) ⟨"dup", 2⟩).list "dup"
      = some ⟨"dup", 2⟩ ∧
    (⟨"dup", 2⟩ : AdapterCls) ≠ ⟨"dup", 1⟩ :=
  ⟨by decide, by decide⟩

/-- Witness for `c9_duplicate_name_overwrites` at two concrete classes named
`"reg"`. -/
theorem c9_witness :
    (initSubclass (initSubclass ProviderRegistry.empty ⟨"reg", 1⟩) ⟨"reg", 2⟩).list "reg"
      = some ⟨"reg", 2⟩ ∧
    (initSubclass (initSubclass ProviderRegistry.empty ⟨"reg", 1⟩) ⟨"reg", 2⟩).achieve "reg"
      = some ⟨"reg", 2⟩ :=
  c9_duplicate_name_overwrites ProviderRegistry.empty ⟨"reg", 1⟩ ⟨"reg", 2⟩ rfl (by decide)

/-! ## C2 — per-request config merging -/

/-- `cfgLookup` on a cons cell. -/
theorem cfgLookup_cons (kv : String × String) (l : List (String × String))
    (k : String) :
    cfgLookup (kv :: l) k = if kv.1 = k then some kv.2 else cfgLookup l k := by
  unfold cfgLookup
  by_cases h : kv.1 = k
  · rw [List.find?_cons_of_pos _ (by simp [h]), if_pos h]
    rfl
  · rw [List.find?_cons_of_neg _ (by simp [h]), if_neg h]

/-- `cfgLookup` distributes over append. -/
theorem cfgLookup_append (l₁ l₂ : List (String × String)) (k : String) :
    cfgLookup (l₁ ++ l₂) k =
      match cfgLookup l₁ k with
      | some v => some v
      | none => cfgLookup l₂ k := by
  induction l₁ with
  | nil => rfl
  | cons kv l₁ ih =>
    rw [List.cons_append, cfgLookup_cons, cfgLookup_cons]
    by_cases h : kv.1 = k
    · simp [h]
    · simp [h, ih]

/-- Keys absent from `o` are untouched by the merge's base filter. -/
theorem cfgLookup_filter_of_none {o : List (String × String)} {k : String}
    (h : cfgLookup o k = none) (b : List (String × String)) :
    cfgLookup (b.filter (fun kv => (cfgLookup o kv.1).isNone)) k = cfgLookup b k := by
  induction b with
  | nil => rfl
  | cons kv b ih =>
    by_cases hk : kv.1 = k
    · have hkeep : ((cfgLookup o kv.1).isNone) = true := by rw [hk, h]; rfl
      simp [List.filter_cons, hkeep, cfgLookup_cons, hk, h]
    · cases hdrop : ((cfgLookup o kv.1).isNone) with
      | true => simp [List.filter_cons, hdrop, cfgLookup_cons, hk, ih]
      | false => simp [List.filter_cons, hdrop, cfgLookup_cons, hk, ih]

/-- C2 (amended): in the router module's `_resolve_providers` the provider is
invoked under the token config merged with the per-request config, request
winning on every key; the resolver in `src/main.py`, which serves the mounted
search endpoint, instead returns the request's providers verbatim (see the
counterexample). -/
theorem c2_router_merges_request_wins :
    (∀ (configs : List TokenProviderConfig) (reqs : List Provider), reqs ≠ [] →
      router_resolve_providers configs reqs = reqs.map (routerResolveOne configs)) ∧
    (∀ (configs : List TokenProviderConfig) (req : Provider) (tc : TokenProviderConfig),
      tokenConfigMap configs req.name = some tc →
      (routerResolveOne configs req).config = some (merge_config tc.config_json req.config)) ∧
    (∀ (b o : List (String × String)) (k : String),
      cfgLookup (merge_config (some b) (some o)) k =
        match cfgLookup o k with
        | some v => some v
        | none => cfgLookup b k) := by
  refine ⟨?_, ?_, ?_⟩
  · intro configs reqs h
    unfold router_resolve_providers
    rw [if_neg h]
  · intro configs req tc h
    unfold routerResolveOne
    rw [h]
  · intro b o k
    show cfgLookup (o ++ b.filter fun kv => (cfgLookup o kv.1).isNone) k = _
    rw [cfgLookup_append]
    cases ho : cfgLookup o k
    · rw [cfgLookup_filter_of_none ho b]
    · rfl

/-- C2 counterexample: the live resolver `resolve_providers` of `src/main.py`
returns the request's provider verbatim, so the adapter is invoked without
the stored `key` even though the merged config would contain it. -/
theorem c2_counterexample :
    resolve_providers [⟨"like", some 0, some [("model", "gpt4")]⟩]
        [⟨"like", true, some [("key", "xxx")]⟩]
      = [⟨"like", some 0, some [("model", "gpt4")]⟩] ∧
    cfgLookup [("model", "gpt4")] "key" = none ∧
    cfgLookup (merge_config (some [("key", "xxx")]) (some [("model", "gpt4")])) "key"
      = some "xxx" :=
  ⟨by decide, by decide, by decide⟩

/-- Witness for `c2_router_merges_request_wins` at a concrete token config
and request provider. -/
theorem c2_witness :
    router_resolve_providers [⟨"like", true, some [("key", "xxx")]⟩]
        [⟨"like", some 0, some [("model", "gpt4")]⟩]
      = [routerResolveOne [⟨"like", true, some [("key", "xxx")]⟩]
          ⟨"like", some 0, some [("model", "gpt4")]⟩] ∧
    (routerResolveOne [⟨"like", true, some [("key", "xxx")]⟩]
        ⟨"like", some 0, some [("model", "gpt4")]⟩).config
      = some (merge_config (some [("key", "xxx")]) (some [("model", "gpt4")])) :=
  ⟨c2_router_merges_request_wins.1 _ _ (by decide),
   c2_router_merges_request_wins.2.1 _ ⟨"like", some 0, some [("model", "gpt4")]⟩
     ⟨"like", true, some [("key", "xxx")]⟩ (by decide)⟩

/-! ## C1 — exception containment at the adapter boundary -/

/-- C1 (amended): `Providersbase.search` re-raises upstream failures (see the
counterexample), but the fan-out's result loop never lets one escape: an
exception entry in the gathered results is replaced, in place, by a failure
answer with `success=false` and `error_type="unknown"` — a kind in the closed
taxonomy — while all other entries pass through unchanged. -/
theorem c1_fanout_maps_exception_to_unknown (qtype : Option Nat)
    (l₁ l₂ : List (String × Except PyExc AnsA)) (p : String) (e : PyExc) :
    processResults qtype (l₁ ++ (p, Except.error e) :: l₂) =
      processResults qtype l₁ ++
        resultToAnswer qtype p (Except.error e) :: processResults qtype l₂ ∧
    (resultToAnswer qtype p (Except.error e)).success = false ∧
    (resultToAnswer qtype p (Except.error e)).error_type = some "unknown" ∧
    "unknown" ∈ errorKinds := by
  refine ⟨?_, rfl, rfl, by decide⟩
  simp [processResults]

/-- C1 counterexample: `Providersbase.search` propagates the upstream
exception to its caller (the claim says it never does). -/
theorem c1_search_propagates_counterexample :
    providersbaseSearch (.error (.generic "boom")) = .error (.generic "boom") :=
  rfl

/-! ## C8 — option-presence matching on cache lookups -/

/-- `scalar_one_or_none` only ever returns an element of the queried list. -/
theorem scalarOne_some_mem {l : List α} {a : α} (h : scalarOne l = .ok (some a)) :
    a ∈ l := by
  match l, h with
  | [x], h =>
    simp only [scalarOne, Except.ok.injEq, Option.some.injEq] at h
    simp [h]

/-- The acceptance scan of `_find_by_embedding` returns a candidate only when
its normalized options equal the request's. -/
theorem embedScan_some {dist : Vec → Vec → ℚ} {v : Vec}
    {no : Option (List String)} :
    ∀ {l : List QuestionRow} {q : QuestionRow},
      embedScan dist v no l = some q → q.normalized_options = no := by
  intro l
  induction l with
  | nil => intro q h; simp [embedScan] at h
  | cons q' rest ih =>
    intro q h
    simp only [embedScan] at h
    split_ifs at h with h1 h2 h3
    · exact ih h
    · exact ih h
    · -- accepted: presence flags agree and, when present, the options agree
      cases h
      rcases hq : q'.normalized_options with _ | l'
      · rcases hn : no with _ | ln
        · rfl
        · exact absurd (by simp [hq, hn]) h2
      · rcases hn : no with _ | ln
        · exact absurd (by simp [hq, hn]) h2
        · by_contra hne
          exact h3 ⟨by simp [hq], by rw [hq, hn]; simpa [hq, hn] using hne⟩
    · exact ih h

/-- C8: both cache lookup paths return a stored question only if
option-presence matches the request bidirectionally: the stored
`normalized_options` equal the request's normalized options — `NULL` matches
exactly the requests without options, a stored option set matches exactly the
requests with the same normalized option set. -/
theorem c8_lookup_option_presence :
    (∀ (s : Store) (content : String) (qt : Option Nat)
       (options : Option (List String)) (q : QuestionRow),
      find_by_normalized s content qt options = .ok (some q) →
      q.normalized_options = normalize_options options) ∧
    (∀ (dist : Vec → Vec → ℚ) (esvc : Option EmbSvc) (s : Store)
       (content : String) (qt : Option Nat)
       (options : Option (List String)) (q : QuestionRow),
      find_by_embedding dist esvc s content qt options = some q →
      q.normalized_options = normalize_options options) := by
  constructor
  · intro s content qt options q h
    have hm := scalarOne_some_mem h
    have hp := (List.mem_filter.mp hm).2
    simp only [Bool.and_eq_true, beq_iff_eq] at hp
    exact hp.2
  · intro dist esvc s content qt options q h
    cases esvc with
    | none => simp [find_by_embedding] at h
    | some svc => exact embedScan_some h

/-- Witness for `c8_lookup_option_presence`: a one-row store hit by the exact
path, and a one-row store hit by the embedding path (zero distance, so
similarity 1 ≥ 0.82). -/
theorem c8_witness :
    (find_by_normalized ⟨[⟨0, "qq", "qq", some 0, none, none, some [1]⟩], [], [], 1, 0⟩
        "qq" (some 0) none = .ok (some ⟨0, "qq", "qq", some 0, none, none, some [1]⟩) ∧
      (⟨0, "qq", "qq", some 0, none, none, some [1]⟩ : QuestionRow).normalized_options
        = normalize_options none) ∧
    (find_by_embedding (fun _ _ => 0) (some ⟨fun _ => [1], fun _ => [1]⟩)
        ⟨[⟨0, "zz", "zz", some 0, none, none, some [1]⟩], [], [], 1, 0⟩
        "qq" (some 0) none = some ⟨0, "zz", "zz", some 0, none, none, some [1]⟩ ∧
      (⟨0, "zz", "zz", some 0, none, none, some [1]⟩ : QuestionRow).normalized_options
        = normalize_options none) := by
  have hemb : find_by_embedding (fun _ _ => 0) (some ⟨fun _ => [1], fun _ => [1]⟩)
      ⟨[⟨0, "zz", "zz", some 0, none, none, some [1]⟩], [], [], 1, 0⟩
      "qq" (some 0) none = some ⟨0, "zz", "zz", some 0, none, none, some [1]⟩ := by
    simp only [find_by_embedding, build_embedding_text, sortLe, insertLe, embedScan,
      pyOr0, normalize_options, List.filter, List.foldr, List.take]
    norm_num
  have hnorm : find_by_normalized
      ⟨[⟨0, "qq", "qq", some 0, none, none, some [1]⟩], [], [], 1, 0⟩
      "qq" (some 0) none = .ok (some ⟨0, "qq", "qq", some 0, none, none, some [1]⟩) := by
    decide
  exact ⟨⟨hnorm,
          c8_lookup_option_presence.1
            ⟨[⟨0, "qq", "qq", some 0, none, none, some [1]⟩], [], [], 1, 0⟩
            "qq" (some 0) none ⟨0, "qq", "qq", some 0, none, none, some [1]⟩ hnorm⟩,
         ⟨hemb,
          c8_lookup_option_presence.2 (fun _ _ => 0)
            (some ⟨fun _ => [1], fun _ => [1]⟩)
            ⟨[⟨0, "zz", "zz", some 0, none, none, some [1]⟩], [], [], 1, 0⟩
            "qq" (some 0) none ⟨0, "zz", "zz", some 0, none, none, some [1]⟩ hemb⟩⟩

/-! ## C7 — write-through idempotence: basic inversions -/

/-- `scalar_one_or_none` returns `None` exactly on an empty result set. -/
theorem scalarOne_ok_none_iff {l : List α} : scalarOne l = .ok none ↔ l = [] := by
  cases l with
  | nil => simp [scalarOne]
  | cons a l =>
    cases l with
    | nil => simp [scalarOne]
    | cons b l => simp [scalarOne]

/-- `scalar_one_or_none` returns a row exactly on a singleton result set. -/
theorem scalarOne_ok_some_iff {l : List α} {a : α} :
    scalarOne l = .ok (some a) ↔ l = [a] := by
  cases l with
  | nil => simp [scalarOne]
  | cons x l =>
    cases l with
    | nil => simp [scalarOne, eq_comm]
    | cons y l => simp [scalarOne]

/-- For a well-formed payload, the save path's null-aware lookup condition is
exactly equality of de-duplication keys. -/
theorem answerRowMatches_iff {a : AnsA} (hok : okPayload a) (r : AnswerRow) :
    answerRowMatches a r = true ↔ rowKey r = ansKey a := by
  obtain ⟨hc, ht⟩ := hok
  unfold answerRowMatches rowKey ansKey
  simp only [Bool.and_eq_true, beq_iff_eq, Prod.mk.injEq]
  constructor
  · rintro ⟨⟨⟨h1, h2⟩, h3⟩, h4⟩
    refine ⟨h1, ?_, ?_, ?_⟩
    · rcases ha : a.choice with _ | l
      · simpa [truthyList, ha] using h2
      · cases l with
        | nil => exact absurd ha hc
        | cons x xs => simpa [truthyList, ha] using h2
    · rcases ha : a.judgement with _ | b
      · simpa [ha] using h3
      · simpa [ha] using h3
    · rcases ha : a.text with _ | l
      · simpa [truthyList, ha] using h4
      · cases l with
        | nil => exact absurd ha ht
        | cons x xs => simpa [truthyList, ha] using h4
  · rintro ⟨h1, h2, h3, h4⟩
    refine ⟨⟨⟨h1, ?_⟩, ?_⟩, ?_⟩
    · rcases ha : a.choice with _ | l
      · simp [truthyList, ha, h2]
      · cases l with
        | nil => exact absurd ha hc
        | cons x xs => simp [truthyList, ha, h2]
    · rcases ha : a.judgement with _ | b
      · simp [ha, h3]
      · simp [ha, h3]
    · rcases ha : a.text with _ | l
      · simp [truthyList, ha, h4]
      · cases l with
        | nil => exact absurd ha ht
        | cons x xs => simp [truthyList, ha, h4]

/-- A freshly inserted answer row carries exactly the in-flight answer's key
and therefore satisfies the lookup condition. -/
theorem answerRowMatches_new {a : AnsA} (hok : okPayload a) (i : Nat) :
    answerRowMatches a ⟨i, a.type, a.choice, a.judgement, a.text⟩ = true :=
  (answerRowMatches_iff hok _).mpr rfl

/-- The cell-lookup condition is exactly equality of cell keys. -/
theorem qpaPred_iff (qid : Nat) (pname : String) (r : QPARow) :
    (r.question_id == qid && r.provider_name == pname) = true ↔
      qpaKey r = (qid, pname) := by
  unfold qpaKey
  simp [Prod.ext_iff]

/-- Filtering a pairwise-key-distinct list by a key-characterized predicate
yields exactly the one member with that key. -/
theorem filter_eq_singleton_of_pairwise {α β : Type _} (key : α → β) {k : β}
    {l : List α} (hp : l.Pairwise (fun a b => key a ≠ key b)) (p : α → Bool)
    (hk : ∀ x, p x = true ↔ key x = k) {r : α} (hr : r ∈ l) (hpr : p r = true) :
    l.filter p = [r] := by
  induction l with
  | nil => cases hr
  | cons x xs ih =>
    rw [List.pairwise_cons] at hp
    rcases List.mem_cons.mp hr with rfl | hr
    · rw [List.filter_cons_of_pos hpr]
      have hnil : xs.filter p = [] := by
        rw [List.filter_eq_nil_iff]
        intro y hy hpy
        exact hp.1 y hy (((hk r).mp hpr).trans ((hk y).mp hpy).symm)
      rw [hnil]
    · have hpx : ¬ p x = true := by
        intro hpx
        exact hp.1 r hr (((hk x).mp hpx).trans ((hk r).mp hpr).symm)
      rw [List.filter_cons_of_neg (by simpa using hpx)]
      exact ih hp.2 hr

/-- Filtering by an absent key yields nothing. -/
theorem filter_eq_nil_of_key_not_mem {α β : Type _} (key : α → β) {k : β}
    {l : List α} (p : α → Bool) (hk : ∀ x, p x = true ↔ key x = k)
    (habs : k ∉ l.map key) : l.filter p = [] := by
  rw [List.filter_eq_nil_iff]
  intro y hy hpy
  exact habs (List.mem_map.mpr ⟨y, hy, (hk y).mp hpy⟩)

/-- `Except` bind on a success. -/
theorem exceptBind_ok (a : α) (f : α → Except ε β) : (Except.ok a >>= f) = f a :=
  rfl

/-- `Except` bind on a failure. -/
theorem exceptBind_error (e : ε) (f : α → Except ε β) :
    ((Except.error e : Except ε α) >>= f) = .error e :=
  rfl

/-- Complete case analysis of one successful `save_pair` call. -/
theorem save_pair_cases {qid : Nat} {st : Store} {p : Provider} {a : AnsA}
    {st' : Store} (h : save_pair qid st p a = .ok st') :
    ∃ aid st1,
      ((∃ r, find_answer st a = .ok (some r) ∧ aid = r.id ∧ st1 = st) ∨
       (find_answer st a = .ok none ∧ aid = st.nextA ∧
        st1 = { st with
                answers := st.answers ++
                  [⟨st.nextA, a.type, a.choice, a.judgement, a.text⟩],
                nextA := st.nextA + 1 })) ∧
      ((scalarOne (st1.qpas.filter
          (fun r => r.question_id == qid && r.provider_name == p.name)) = .ok none ∧
        st' = { st1 with qpas := st1.qpas ++ [⟨qid, p.name, aid⟩] }) ∨
       (∃ r0, scalarOne (st1.qpas.filter
          (fun r => r.question_id == qid && r.provider_name == p.name)) = .ok (some r0) ∧
        st' = { st1 with qpas := overwriteQpa qid p.name aid st1.qpas })) := by
  unfold save_pair at h
  cases hfa : find_answer st a with
  | error e =>
    rw [hfa, exceptBind_error] at h
    cases h
  | ok found =>
    rw [hfa, exceptBind_ok] at h
    cases found with
    | none =>
      dsimp only at h
      cases hsc : scalarOne ((({ st with
          answers := st.answers ++ [⟨st.nextA, a.type, a.choice, a.judgement, a.text⟩],
          nextA := st.nextA + 1 } : Store).qpas).filter
            (fun r => r.question_id == qid && r.provider_name == p.name)) with
      | error e =>
        rw [hsc, exceptBind_error] at h
        cases h
      | ok qf =>
        rw [hsc, exceptBind_ok] at h
        refine ⟨st.nextA, _, Or.inr ⟨rfl, rfl, rfl⟩, ?_⟩
        cases qf with
        | none =>
          left
          exact ⟨hsc, by cases h; rfl⟩
        | some r0 =>
          right
          exact ⟨r0, hsc, by cases h; rfl⟩
    | some r =>
      dsimp only at h
      cases hsc : scalarOne (st.qpas.filter
          (fun r => r.question_id == qid && r.provider_name == p.name)) with
      | error e =>
        rw [hsc, exceptBind_error] at h
        cases h
      | ok qf =>
        rw [hsc, exceptBind_ok] at h
        refine ⟨r.id, st, Or.inl ⟨r, rfl, rfl, rfl⟩, ?_⟩
        cases qf with
        | none =>
          left
          exact ⟨hsc, by cases h; rfl⟩
        | some r0 =>
          right
          exact ⟨r0, hsc, by cases h; rfl⟩

/-- In-place cell updates do not change the cell key. -/
theorem qpaKey_overwriteFun (qid : Nat) (pname : String) (aid : Nat) (r : QPARow) :
    qpaKey (if r.question_id == qid && r.provider_name == pname then
      { r with answer_id := aid } else r) = qpaKey r := by
  split <;> rfl

/-- In-place cell updates keep the list of cell keys. -/
theorem overwriteQpa_keys (qid : Nat) (pname : String) (aid : Nat)
    (l : List QPARow) :
    (overwriteQpa qid pname aid l).map qpaKey = l.map qpaKey := by
  unfold overwriteQpa
  induction l with
  | nil => rfl
  | cons r l ih =>
    simp only [List.map_cons, ih, qpaKey_overwriteFun]

/-- A cell with a different key passes through the in-place update. -/
theorem overwriteQpa_mem_of_ne {qid : Nat} {pname : String} {aid : Nat}
    {l : List QPARow} {rs : QPARow} (h : rs ∈ l)
    (hne : qpaKey rs ≠ (qid, pname)) : rs ∈ overwriteQpa qid pname aid l := by
  unfold overwriteQpa
  refine List.mem_map.mpr ⟨rs, h, ?_⟩
  rw [if_neg]
  intro hp
  exact hne ((qpaPred_iff qid pname rs).mp hp)

/-- After the in-place update, every cell carrying the updated key points at
the new answer id. -/
theorem overwriteQpa_answer_id {qid : Nat} {pname : String} {aid : Nat}
    {l : List QPARow} {rs : QPARow} (h : rs ∈ overwriteQpa qid pname aid l)
    (hk : qpaKey rs = (qid, pname)) : rs.answer_id = aid := by
  unfold overwriteQpa at h
  obtain ⟨r1, hr1, heq⟩ := List.mem_map.mp h
  by_cases hp : (r1.question_id == qid && r1.provider_name == pname) = true
  · rw [if_pos hp] at heq
    rw [← heq]
  · rw [if_neg hp] at heq
    subst heq
    exact absurd ((qpaPred_iff qid pname r1).mpr hk) hp

/-- Pairwise-distinct cell keys survive the in-place update. -/
theorem qpasWF_overwrite {qid : Nat} {pname : String} {aid : Nat}
    {l : List QPARow} (h : qpasWF l) : qpasWF (overwriteQpa qid pname aid l) := by
  unfold overwriteQpa
  exact h.map _ (fun a b hab => by
    rw [qpaKey_overwriteFun, qpaKey_overwriteFun]
    exact hab)

/-- Postconditions of one successful `save_pair` call on a well-formed
store. -/
theorem save_pair_post {qid : Nat} {st : Store} {p : Provider} {a : AnsA}
    {st' : Store} (hA : answersWF st.answers) (hQ : qpasWF st.qpas)
    (hok : okPayload a) (h : save_pair qid st p a = .ok st') :
    (st'.questions = st.questions ∧ st'.nextQ = st.nextQ) ∧
    (∃ ext, st'.answers = st.answers ++ ext) ∧
    answersWF st'.answers ∧
    qpasWF st'.qpas ∧
    (∀ k ∈ st.qpas.map qpaKey, k ∈ st'.qpas.map qpaKey) ∧
    ((qid, p.name) ∈ st'.qpas.map qpaKey) ∧
    (∀ rs ∈ st.qpas, qpaKey rs ≠ (qid, p.name) → rs ∈ st'.qpas) ∧
    (∃ r ∈ st'.answers, answerRowMatches a r = true ∧
      ∀ rs ∈ st'.qpas, qpaKey rs = (qid, p.name) → rs.answer_id = r.id) := by
  obtain ⟨aid, st1, hfind, hqpa⟩ := save_pair_cases h
  -- the matched or created answer row
  have hans : st1.questions = st.questions ∧ st1.nextQ = st.nextQ ∧
      st1.qpas = st.qpas ∧ (∃ ext, st1.answers = st.answers ++ ext) ∧
      answersWF st1.answers ∧
      (∃ r ∈ st1.answers, answerRowMatches a r = true ∧ aid = r.id) := by
    rcases hfind with ⟨r, hfa, haid, hst1⟩ | ⟨hfa, haid, hst1⟩
    · subst hst1
      have hfa2 : scalarOne (st1.answers.filter (answerRowMatches a)) = .ok (some r) := hfa
      have hfilter := scalarOne_ok_some_iff.mp hfa2
      have hr_mem : r ∈ st1.answers := by
        have hm : r ∈ st1.answers.filter (answerRowMatches a) := by
          rw [hfilter]; exact List.mem_singleton.mpr rfl
        exact List.mem_of_mem_filter hm
      have hr_match : answerRowMatches a r = true := by
        have hm : r ∈ st1.answers.filter (answerRowMatches a) := by
          rw [hfilter]; exact List.mem_singleton.mpr rfl
        exact List.of_mem_filter hm
      exact ⟨rfl, rfl, rfl, ⟨[], by simp⟩, hA, r, hr_mem, hr_match, haid⟩
    · subst hst1
      have hfa2 : scalarOne (st.answers.filter (answerRowMatches a)) = .ok none := hfa
      have hfilter := scalarOne_ok_none_iff.mp hfa2
      have hnomatch : ∀ x ∈ st.answers, ¬ answerRowMatches a x = true := by
        rw [← List.filter_eq_nil_iff]
        exact hfilter
      refine ⟨rfl, rfl, rfl, ⟨_, rfl⟩, ?_, ?_⟩
      · rw [answersWF, List.pairwise_append]
        refine ⟨hA, by simp [answersWF], ?_⟩
        intro x hx y hy
        simp only [List.mem_singleton] at hy
        subst hy
        intro hkeq
        exact hnomatch x hx ((answerRowMatches_iff hok x).mpr
          (hkeq.trans ((answerRowMatches_iff hok _).mp (answerRowMatches_new hok st.nextA))))
      · exact ⟨⟨st.nextA, a.type, a.choice, a.judgement, a.text⟩,
          by simp, answerRowMatches_new hok st.nextA, haid⟩
  obtain ⟨hq1, hn1, hp1, ⟨ext, hext⟩, hA1, r, hr_mem, hr_match, haid⟩ := hans
  rcases hqpa with ⟨hsc, hst'⟩ | ⟨r0, hsc, hst'⟩
  · -- new cell appended
    subst hst'
    rw [hp1] at hsc ⊢
    have hfilter := scalarOne_ok_none_iff.mp hsc
    have hnokey : ∀ rs ∈ st.qpas, qpaKey rs ≠ (qid, p.name) := by
      intro rs hrs hkeq
      have : rs ∈ st.qpas.filter
          (fun r => r.question_id == qid && r.provider_name == p.name) :=
        List.mem_filter.mpr ⟨hrs, (qpaPred_iff qid p.name rs).mpr hkeq⟩
      rw [hfilter] at this
      cases this
    refine ⟨⟨hq1, hn1⟩, ⟨ext, hext⟩, hA1, ?_, ?_, ?_, ?_, ?_⟩
    · rw [qpasWF, List.pairwise_append]
      exact ⟨hQ, by simp [qpasWF], fun x hx y hy => by
        simp only [List.mem_singleton] at hy
        subst hy
        exact hnokey x hx⟩
    · intro k hk
      simp only [List.map_append, List.mem_append]
      exact Or.inl hk
    · simp [qpaKey]
    · intro rs hrs _
      simp [hrs]
    · refine ⟨r, hr_mem, hr_match, ?_⟩
      intro rs hrs hkeq
      rcases List.mem_append.mp hrs with hold | hnew
      · exact absurd hkeq (hnokey rs hold)
      · simp only [List.mem_singleton] at hnew
        subst hnew
        exact haid
  · -- existing cell repointed
    subst hst'
    rw [hp1] at hsc ⊢
    have hfilter := scalarOne_ok_some_iff.mp hsc
    have hr0_mem : r0 ∈ st.qpas := by
      have : r0 ∈ st.qpas.filter
          (fun r => r.question_id == qid && r.provider_name == p.name) := by
        rw [hfilter]; exact List.mem_singleton.mpr rfl
      exact List.mem_of_mem_filter this
    have hr0_key : qpaKey r0 = (qid, p.name) := by
      have hm : r0 ∈ st.qpas.filter
          (fun r => r.question_id == qid && r.provider_name == p.name) := by
        rw [hfilter]; exact List.mem_singleton.mpr rfl
      exact (qpaPred_iff qid p.name r0).mp ((List.mem_filter.mp hm).2)
    refine ⟨⟨hq1, hn1⟩, ⟨ext, hext⟩, hA1, qpasWF_overwrite hQ, ?_, ?_, ?_, ?_⟩
    · intro k hk
      rw [overwriteQpa_keys]
      exact hk
    · rw [overwriteQpa_keys]
      exact List.mem_map.mpr ⟨r0, hr0_mem, hr0_key⟩
    · intro rs hrs hne
      exact overwriteQpa_mem_of_ne hrs hne
    · refine ⟨r, hr_mem, hr_match, ?_⟩
      intro rs hrs hkeq
      exact (overwriteQpa_answer_id hrs hkeq).trans haid

/-- A cell with a key other than the saved one was already in the store
before the `save_pair` call. -/
theorem save_pair_qpas_backward {qid : Nat} {st : Store} {p : Provider}
    {a : AnsA} {st' : Store} (h : save_pair qid st p a = .ok st') :
    ∀ rs ∈ st'.qpas, qpaKey rs ≠ (qid, p.name) → rs ∈ st.qpas := by
  obtain ⟨aid, st1, hfind, hqpa⟩ := save_pair_cases h
  have hp1 : st1.qpas = st.qpas := by
    rcases hfind with ⟨r, _, _, hst1⟩ | ⟨_, _, hst1⟩ <;> subst hst1 <;> rfl
  intro rs hrs hne
  rcases hqpa with ⟨_, hst'⟩ | ⟨r0, _, hst'⟩ <;> subst hst' <;> rw [hp1] at hrs
  · rcases List.mem_append.mp hrs with hold | hnew
    · exact hold
    · simp only [List.mem_singleton] at hnew
      subst hnew
      exact absurd rfl hne
  · simp only [overwriteQpa, List.mem_map] at hrs
    obtain ⟨r1, hr1, heq⟩ := hrs
    by_cases hp : (r1.question_id == qid && r1.provider_name == p.name) = true
    · rw [if_pos hp] at heq
      subst heq
      exact absurd ((qpaPred_iff qid p.name r1).mp hp) (by simpa [qpaKey] using hne)
    · rw [if_neg hp] at heq
      subst heq
      exact hr1

/-- `lastAnswerFor` on the empty pair list. -/
theorem lastAnswerFor_nil (pname : String) : lastAnswerFor [] pname = none :=
  rfl

/-- `lastAnswerFor` on a cons: the later pairs win. -/
theorem lastAnswerFor_cons (pa : Provider × AnsA) (P : List (Provider × AnsA))
    (pname : String) :
    lastAnswerFor (pa :: P) pname =
      match lastAnswerFor P pname with
      | some a' => some a'
      | none => if pa.1.name = pname then some pa.2 else none := by
  unfold lastAnswerFor
  rw [List.reverse_cons, List.find?_append]
  cases hf : P.reverse.find? (fun x => x.1.name = pname) with
  | none =>
    simp only [Option.or, Option.map]
    cases hp : (pa.1.name == pname) with
    | true =>
      rw [List.find?_cons_of_pos _ (by simpa using hp)]
      simp [if_pos (by simpa using hp : pa.1.name = pname)]
    | false =>
      rw [List.find?_cons_of_neg _ (by simpa using hp)]
      simp [if_neg (by simpa using hp : ¬ pa.1.name = pname)]
  | some x => simp [Option.or]

/-- `lastAnswerFor` is `none` exactly when no pair carries the name. -/
theorem lastAnswerFor_eq_none_iff (P : List (Provider × AnsA)) (pname : String) :
    lastAnswerFor P pname = none ↔ pname ∉ P.map (fun pa => pa.1.name) := by
  unfold lastAnswerFor
  constructor
  · intro h hmem
    obtain ⟨pa, hpa, hname⟩ := List.mem_map.mp hmem
    cases hf : P.reverse.find? (fun pa => pa.1.name = pname) with
    | some x => rw [hf] at h; cases h
    | none =>
      exact (List.find?_eq_none.mp hf pa (List.mem_reverse.mpr hpa)) (by simpa using hname)
  · intro h
    have hf : P.reverse.find? (fun pa => pa.1.name = pname) = none :=
      List.find?_eq_none.mpr (fun pa hpa hname =>
        h (List.mem_map.mpr ⟨pa, List.mem_reverse.mp hpa, by simpa using hname⟩))
    rw [hf]
    rfl

/-- `lastAnswerFor` cons, when the tail already carries the name. -/
theorem lastAnswerFor_cons_of_some {P : List (Provider × AnsA)} {pname : String}
    {a'' : AnsA} (pa : Provider × AnsA) (h : lastAnswerFor P pname = some a'') :
    lastAnswerFor (pa :: P) pname = some a'' := by
  rw [lastAnswerFor_cons, h]

/-- `lastAnswerFor` cons, when the tail does not carry the name. -/
theorem lastAnswerFor_cons_of_none {P : List (Provider × AnsA)} {pname : String}
    (pa : Provider × AnsA) (h : lastAnswerFor P pname = none) :
    lastAnswerFor (pa :: P) pname =
      if pa.1.name = pname then some pa.2 else none := by
  rw [lastAnswerFor_cons, h]

/-- Postconditions of the save loop of `batch_save_answers` on a well-formed
store: the question table and counter are untouched, answer rows are only
appended and stay key-distinct, cell keys stay distinct and only grow, every
processed pair ends up with a matching answer row and a cell, cells with
untouched keys were already present, and every written cell points at the
unique answer row matching the provider's last pair. -/
theorem fold_save_post {qid : Nat} :
    ∀ (P : List (Provider × AnsA)) (st st' : Store),
      (∀ pa ∈ P, okPayload pa.2) →
      answersWF st.answers → qpasWF st.qpas →
      List.foldlM (fun s2 pa => save_pair qid s2 pa.1 pa.2) st P = .ok st' →
      (st'.questions = st.questions ∧ st'.nextQ = st.nextQ) ∧
      (∃ ext, st'.answers = st.answers ++ ext) ∧
      answersWF st'.answers ∧
      qpasWF st'.qpas ∧
      (∀ k ∈ st.qpas.map qpaKey, k ∈ st'.qpas.map qpaKey) ∧
      (∀ pa ∈ P, (qid, pa.1.name) ∈ st'.qpas.map qpaKey) ∧
      (∀ pa ∈ P, ∃ r ∈ st'.answers, answerRowMatches pa.2 r = true) ∧
      (∀ rs ∈ st'.qpas,
        (rs.question_id ≠ qid ∨ rs.provider_name ∉ P.map (fun pa => pa.1.name)) →
        rs ∈ st.qpas) ∧
      (∀ (pname : String) (a' : AnsA), lastAnswerFor P pname = some a' →
        ∀ rs ∈ st'.qpas, qpaKey rs = (qid, pname) →
          ∃ r ∈ st'.answers, answerRowMatches a' r = true ∧ rs.answer_id = r.id) := by
  intro P
  induction P with
  | nil =>
    intro st st' hok hA hQ h
    have hst : st' = st := by
      simp only [List.foldlM_nil] at h
      cases h
      rfl
    subst hst
    refine ⟨⟨rfl, rfl⟩, ⟨[], by simp⟩, hA, hQ, fun k hk => hk, by simp, by simp,
      fun rs hrs _ => hrs, ?_⟩
    intro pname a' hlast
    rw [lastAnswerFor_nil] at hlast
    cases hlast
  | cons pa P ih =>
    intro st st' hok hA hQ h
    rw [List.foldlM_cons] at h
    cases hs1 : save_pair qid st pa.1 pa.2 with
    | error e =>
      rw [hs1, exceptBind_error] at h
      cases h
    | ok st1 =>
      rw [hs1, exceptBind_ok] at h
      have hokpa : okPayload pa.2 := hok pa (by simp)
      have hokP : ∀ pb ∈ P, okPayload pb.2 := fun pb hb => hok pb (by simp [hb])
      obtain ⟨⟨hq1, hn1⟩, ⟨ext1, hext1⟩, hA1, hQ1, hkeys1, hkey_pa, hfwd1,
        ⟨r, hr_mem1, hr_match1, hptr1⟩⟩ := save_pair_post hA hQ hokpa hs1
      obtain ⟨⟨hq2, hn2⟩, ⟨ext2, hext2⟩, hA2, hQ2, hkeys2, hkeyP, hmatchP,
        hback2, hlast2⟩ := ih st1 st' hokP hA1 hQ1 h
      refine ⟨⟨hq2.trans hq1, hn2.trans hn1⟩, ?_, hA2, hQ2, ?_, ?_, ?_, ?_, ?_⟩
      · exact ⟨ext1 ++ ext2, by rw [hext2, hext1, List.append_assoc]⟩
      · intro k hk
        exact hkeys2 k (hkeys1 k hk)
      · intro pb hb
        rcases List.mem_cons.mp hb with rfl | hb
        · exact hkeys2 _ hkey_pa
        · exact hkeyP pb hb
      · intro pb hb
        rcases List.mem_cons.mp hb with rfl | hb
        · exact ⟨r, by rw [hext2]; exact List.mem_append_left _ hr_mem1, hr_match1⟩
        · exact hmatchP pb hb
      · intro rs hrs hcond
        have hcond1 : rs.question_id ≠ qid ∨
            rs.provider_name ∉ P.map (fun x => x.1.name) := by
          rcases hcond with h1 | h2
          · exact Or.inl h1
          · exact Or.inr (fun hc => h2 (by
              rw [List.map_cons]
              exact List.mem_cons_of_mem _ hc))
        have hrs1 : rs ∈ st1.qpas := hback2 rs hrs hcond1
        have hne : qpaKey rs ≠ (qid, pa.1.name) := by
          intro hk
          have hfst : rs.question_id = qid := congrArg Prod.fst hk
          have hsnd : rs.provider_name = pa.1.name := congrArg Prod.snd hk
          rcases hcond with h1 | h2
          · exact h1 hfst
          · exact h2 (by
              rw [List.map_cons]
              exact List.mem_cons.mpr (Or.inl hsnd))
        exact save_pair_qpas_backward hs1 rs hrs1 hne
      · intro pname a' hlastc rs hrs hkeq
        cases hlp : lastAnswerFor P pname with
        | some a'' =>
          rw [lastAnswerFor_cons_of_some pa hlp] at hlastc
          have ha : a'' = a' := by
            cases hlastc
            rfl
          subst ha
          exact hlast2 pname a'' hlp rs hrs hkeq
        | none =>
          rw [lastAnswerFor_cons_of_none pa hlp] at hlastc
          by_cases hname : pa.1.name = pname
          · rw [if_pos hname] at hlastc
            have ha : a' = pa.2 := by
              cases hlastc
              rfl
            subst ha
            have hnotin : pname ∉ P.map (fun x => x.1.name) :=
              (lastAnswerFor_eq_none_iff P pname).mp hlp
            have hrs1 : rs ∈ st1.qpas := by
              refine hback2 rs hrs (Or.inr ?_)
              have hsnd : rs.provider_name = pname := congrArg Prod.snd hkeq
              rw [hsnd]
              exact hnotin
            have hid : rs.answer_id = r.id := by
              refine hptr1 rs hrs1 ?_
              rw [hkeq, hname]
            exact ⟨r, by rw [hext2]; exact List.mem_append_left _ hr_mem1,
              hr_match1, hid⟩
          · rw [if_neg hname] at hlastc
            cases hlastc

/-- Left-to-right membership transfer along `Forall₂`. -/
theorem forall₂_mem_left {α β : Type _} {R : α → β → Prop} :
    ∀ {l : List α} {l' : List β}, List.Forall₂ R l l' →
      ∀ y ∈ l, ∃ y', y' ∈ l' ∧ R y y' := by
  intro l l' h
  induction h with
  | nil => intro y hy; cases hy
  | cons hxy htail ih =>
    intro y hy
    rcases List.mem_cons.mp hy with rfl | hy
    · exact ⟨_, List.mem_cons_self _ _, hxy⟩
    · obtain ⟨y', hy', hr⟩ := ih y hy
      exact ⟨y', List.mem_cons_of_mem _ hy', hr⟩

/-- Equal key lists along a key-preserving `Forall₂`. -/
theorem forall₂_qpaKey_map_eq {R : QPARow → QPARow → Prop}
    (hkey : ∀ x y, R x y → qpaKey x = qpaKey y) :
    ∀ {l l' : List QPARow}, List.Forall₂ R l l' →
      l.map qpaKey = l'.map qpaKey := by
  intro l l' h
  induction h with
  | nil => rfl
  | cons hxy htail ih => simp [hkey _ _ hxy, ih]

/-- Pairwise-distinct keys transfer backwards along a key-preserving
`Forall₂`. -/
theorem qpasWF_of_forall₂ {R : QPARow → QPARow → Prop}
    (hkey : ∀ x y, R x y → qpaKey x = qpaKey y) :
    ∀ {l l' : List QPARow}, List.Forall₂ R l l' → qpasWF l' → qpasWF l := by
  intro l l' h
  induction h with
  | nil => intro _; exact List.Pairwise.nil
  | cons hxy htail ih =>
    intro h'
    rw [qpasWF, List.pairwise_cons] at h' ⊢
    refine ⟨?_, ih h'.2⟩
    intro z hz
    obtain ⟨z', hz', hrz⟩ := forall₂_mem_left htail z hz
    rw [hkey _ _ hxy, hkey _ _ hrz]
    exact h'.1 z' hz'

/-- Two cells with the same key and the same answer id are equal. -/
theorem qpaRow_ext {r r' : QPARow} (hk : qpaKey r = qpaKey r')
    (ha : r.answer_id = r'.answer_id) : r = r' := by
  cases r
  cases r'
  simp only [qpaKey, Prod.mk.injEq] at hk
  simp only [QPARow.mk.injEq]
  exact ⟨hk.1, hk.2, ha⟩

/-- One replayed save step: when the store already holds a matching answer
row and the `(question, provider)` cell, `save_pair` only repoints the cell
at the matching row. -/
theorem replay_step {qid : Nat} {st : Store} {p : Provider} {a : AnsA}
    (hok : okPayload a) (hA : answersWF st.answers) (hQ : qpasWF st.qpas)
    {r : AnswerRow} (hr : r ∈ st.answers) (hmatch : answerRowMatches a r = true)
    {rs : QPARow} (hrs : rs ∈ st.qpas) (hrskey : qpaKey rs = (qid, p.name)) :
    save_pair qid st p a =
      .ok { st with qpas := overwriteQpa qid p.name r.id st.qpas } := by
  have hfilterA : st.answers.filter (answerRowMatches a) = [r] :=
    filter_eq_singleton_of_pairwise rowKey hA (answerRowMatches a)
      (fun x => answerRowMatches_iff hok x) hr hmatch
  have hfa : find_answer st a = .ok (some r) := by
    unfold find_answer
    rw [hfilterA]
    rfl
  have hfilterQ : st.qpas.filter
      (fun r0 => r0.question_id == qid && r0.provider_name == p.name) = [rs] :=
    filter_eq_singleton_of_pairwise qpaKey hQ _
      (fun x => qpaPred_iff qid p.name x) hrs ((qpaPred_iff qid p.name rs).mpr hrskey)
  have hsc : scalarOne (st.qpas.filter
      (fun r0 => r0.question_id == qid && r0.provider_name == p.name)) =
      .ok (some rs) := by
    rw [hfilterQ]
    rfl
  unfold save_pair
  rw [hfa, exceptBind_ok]
  dsimp only
  rw [hsc, exceptBind_ok]
  rfl

/-- `Forall₂` of equality is equality. -/
theorem forall₂_eq_iff_eq {α : Type _} :
    ∀ {l l' : List α}, List.Forall₂ (fun a b => a = b) l l' → l = l' := by
  intro l l' h
  induction h with
  | nil => rfl
  | cons hxy _ ih => rw [hxy, ih]

/-- Extensionality for the store model. -/
theorem store_ext {s t : Store} (h1 : s.questions = t.questions)
    (h2 : s.answers = t.answers) (h3 : s.qpas = t.qpas)
    (h4 : s.nextQ = t.nextQ) (h5 : s.nextA = t.nextA) : s = t := by
  cases s
  cases t
  simp only [Store.mk.injEq]
  exact ⟨h1, h2, h3, h4, h5⟩

/-- Replaying the save loop over a store that already contains its outcome
changes nothing: every pair finds its answer row and repoints its cell at the
value the cell already carries (possibly after transiently rewinding a cell
that a later pair for the same provider rewrites). -/
theorem fold_replay {qid : Nat} {sF : Store}
    (hA : answersWF sF.answers) (hQF : qpasWF sF.qpas) :
    ∀ (P : List (Provider × AnsA)) (st : Store),
      (∀ pa ∈ P, okPayload pa.2) →
      (∀ pa ∈ P, ∃ r ∈ sF.answers, answerRowMatches pa.2 r = true) →
      (∀ pa ∈ P, (qid, pa.1.name) ∈ sF.qpas.map qpaKey) →
      (∀ (pname : String) (a' : AnsA), lastAnswerFor P pname = some a' →
        ∀ rs ∈ sF.qpas, qpaKey rs = (qid, pname) →
          ∃ r ∈ sF.answers, answerRowMatches a' r = true ∧ rs.answer_id = r.id) →
      st.questions = sF.questions → st.answers = sF.answers →
      st.nextQ = sF.nextQ → st.nextA = sF.nextA →
      List.Forall₂ (fun r r' => r' ∈ sF.qpas ∧ qpaKey r = qpaKey r' ∧
          (r.answer_id = r'.answer_id ∨
           (r.question_id = qid ∧ r.provider_name ∈ P.map (fun pa => pa.1.name))))
        st.qpas sF.qpas →
      List.foldlM (fun s2 pa => save_pair qid s2 pa.1 pa.2) st P = .ok sF := by
  intro P
  induction P with
  | nil =>
    intro st hok hmatch hkey hlast hq ha hnq hna hrel
    have hqpas : st.qpas = sF.qpas := by
      refine forall₂_eq_iff_eq (hrel.imp ?_)
      intro x y hxy
      rcases hxy.2.2 with haid | ⟨_, hmem⟩
      · exact qpaRow_ext hxy.2.1 haid
      · simp at hmem
    rw [List.foldlM_nil, store_ext hq ha hqpas hnq hna]
    rfl
  | cons pa P ih =>
    intro st hok hmatch hkey hlast hq ha hnq hna hrel
    have hokpa : okPayload pa.2 := hok pa (by simp)
    obtain ⟨r, hr_memF, hr_match⟩ := hmatch pa (by simp)
    have hr_mem : r ∈ st.answers := by rw [ha]; exact hr_memF
    have hAst : answersWF st.answers := by rw [ha]; exact hA
    have hkeymap : st.qpas.map qpaKey = sF.qpas.map qpaKey :=
      forall₂_qpaKey_map_eq (fun x y hxy => hxy.2.1) hrel
    have hQst : qpasWF st.qpas :=
      qpasWF_of_forall₂ (fun x y hxy => hxy.2.1) hrel hQF
    have hkeymem : (qid, pa.1.name) ∈ st.qpas.map qpaKey := by
      rw [hkeymap]
      exact hkey pa (by simp)
    obtain ⟨rs, hrs_mem, hrs_key⟩ := List.mem_map.mp hkeymem
    have hstep := replay_step hokpa hAst hQst hr_mem hr_match hrs_mem hrs_key
    rw [List.foldlM_cons, hstep, exceptBind_ok]
    refine ih { st with qpas := overwriteQpa qid pa.1.name r.id st.qpas }
      (fun pb hb => hok pb (List.mem_cons_of_mem _ hb))
      (fun pb hb => hmatch pb (List.mem_cons_of_mem _ hb))
      (fun pb hb => hkey pb (List.mem_cons_of_mem _ hb))
      (fun pname a' hl rs' h1 h2 =>
        hlast pname a' (lastAnswerFor_cons_of_some pa hl) rs' h1 h2)
      hq ha hnq hna ?_
    show List.Forall₂ _ (overwriteQpa qid pa.1.name r.id st.qpas) sF.qpas
    unfold overwriteQpa
    rw [List.forall₂_map_left_iff]
    refine hrel.imp ?_
    intro x y hxy
    refine ⟨hxy.1, ?_, ?_⟩
    · rw [qpaKey_overwriteFun]
      exact hxy.2.1
    · by_cases hp : (x.question_id == qid && x.provider_name == pa.1.name) = true
      · rw [if_pos hp]
        have hkx : qpaKey x = (qid, pa.1.name) := (qpaPred_iff _ _ _).mp hp
        by_cases hmem : pa.1.name ∈ P.map (fun z => z.1.name)
        · right
          have hc := hkx
          simp only [qpaKey, Prod.mk.injEq] at hc
          refine ⟨hc.1, ?_⟩
          show x.provider_name ∈ P.map (fun z => z.1.name)
          rw [hc.2]
          exact hmem
        · left
          have hlnone : lastAnswerFor P pa.1.name = none :=
            (lastAnswerFor_eq_none_iff P pa.1.name).mpr hmem
          have hlcons : lastAnswerFor (pa :: P) pa.1.name = some pa.2 := by
            rw [lastAnswerFor_cons_of_none pa hlnone, if_pos rfl]
          have hky : qpaKey y = (qid, pa.1.name) := hxy.2.1.symm.trans hkx
          obtain ⟨rr, hrr_mem, hrr_match, hrr_id⟩ :=
            hlast pa.1.name pa.2 hlcons y hxy.1 hky
          have hrr : rr = r := by
            have hfil := filter_eq_singleton_of_pairwise rowKey hA
              (answerRowMatches pa.2) (fun z => answerRowMatches_iff hokpa z)
              hr_memF hr_match
            have hm : rr ∈ sF.answers.filter (answerRowMatches pa.2) :=
              List.mem_filter.mpr ⟨hrr_mem, hrr_match⟩
            rw [hfil] at hm
            exact List.mem_singleton.mp hm
          show r.id = y.answer_id
          rw [← hrr]
          exact hrr_id.symm
      · rw [if_neg hp]
        rcases hxy.2.2 with haid | ⟨hxqid, hxmem⟩
        · exact Or.inl haid
        · rw [List.map_cons] at hxmem
          rcases List.mem_cons.mp hxmem with heq | hmem2
          · exact absurd ((qpaPred_iff qid pa.1.name x).mpr (by
              simp only [qpaKey, Prod.mk.injEq]
              exact ⟨hxqid, heq⟩)) hp
          · exact Or.inr ⟨hxqid, hmem2⟩

/-- `find_question` reads only the question table. -/
theorem find_question_ext {dist : Vec → Vec → ℚ} {esvc : Option EmbSvc}
    {s₁ s₂ : Store} (h : s₁.questions = s₂.questions) (c : String)
    (t : Option Nat) (o : Option (List String)) :
    find_question dist esvc s₁ c t o = find_question dist esvc s₂ c t o := by
  unfold find_question find_by_normalized find_by_embedding
  rw [h]

/-- A fully missed `find_question` missed the exact path. -/
theorem find_question_none_exact {dist : Vec → Vec → ℚ} {esvc : Option EmbSvc}
    {s : Store} {c : String} {t : Option Nat} {o : Option (List String)}
    (h : find_question dist esvc s c t o = .ok none) :
    find_by_normalized s c t o = .ok none := by
  unfold find_question at h
  cases hfn : find_by_normalized s c t o with
  | error e => rw [hfn, exceptBind_error] at h; cases h
  | ok f =>
    cases f with
    | none => rfl
    | some q =>
      rw [hfn, exceptBind_ok] at h
      cases h

/-- C7 (amended): on a store whose answer keys and cell keys are duplicate
free — the spec's own de-duplication invariants — running
`batch_save_answers` twice with the same query and the same pair list whose
payloads are absent-or-non-empty leaves the store exactly as after one run:
no new `Question`, `Answer` or `QuestionProviderAnswer` row appears and every
cell keeps its answer pointer.  (Without the payload condition the claim
fails: see the counterexample, where a `text=[]` payload is re-inserted on
every run.) -/
theorem c7_batch_save_idempotent {dist : Vec → Vec → ℚ} {esvc : Option EmbSvc}
    {s s' : Store} {query : QuestionContent} {pairs : List (Provider × AnsA)}
    (hA : answersWF s.answers) (hQ : qpasWF s.qpas)
    (hok : ∀ pa ∈ pairs, okPayload pa.2)
    (h1 : batch_save_answers dist esvc s query pairs = .ok s') :
    batch_save_answers dist esvc s' query pairs = .ok s' := by
  unfold batch_save_answers at h1 ⊢
  cases hfq : find_question dist esvc s query.content query.type query.options with
  | error e =>
    rw [hfq, exceptBind_error] at h1
    cases h1
  | ok foundQ =>
    rw [hfq, exceptBind_ok] at h1
    cases foundQ with
    | some q =>
      dsimp only at h1
      obtain ⟨⟨hq2, hn2⟩, ⟨ext, hext⟩, hA', hQ', hkeys, hkeyP, hmatchP, hback,
        hlastP⟩ := fold_save_post pairs s s' hok hA hQ h1
      have hfq2 : find_question dist esvc s' query.content query.type
          query.options = .ok (some q) := by
        rw [find_question_ext hq2]
        exact hfq
      rw [hfq2, exceptBind_ok]
      dsimp only
      exact fold_replay hA' hQ' pairs s' hok hmatchP hkeyP hlastP rfl rfl rfl rfl
        (List.forall₂_same.mpr (fun x hx => ⟨hx, rfl, Or.inl rfl⟩))
    | none =>
      dsimp only at h1
      obtain ⟨⟨hq2, hn2⟩, ⟨ext, hext⟩, hA', hQ', hkeys, hkeyP, hmatchP, hback,
        hlastP⟩ := fold_save_post pairs
          { s with
            questions := s.questions ++
              [⟨s.nextQ, query.content, normalize_text query.content,
                query.type, query.options, normalize_options query.options,
                generate_embedding esvc query.content query.options⟩],
            nextQ := s.nextQ + 1 }
          s' hok hA hQ h1
      have hfn : find_by_normalized s query.content query.type query.options
          = .ok none := find_question_none_exact hfq
      have hfilter : s.questions.filter
          (fun q => q.normalized_content == normalize_text query.content &&
            q.type == query.type &&
            q.normalized_options == normalize_options query.options) = [] :=
        scalarOne_ok_none_iff.mp hfn
      have hfn2 : find_by_normalized s' query.content query.type query.options
          = .ok (some ⟨s.nextQ, query.content, normalize_text query.content,
            query.type, query.options, normalize_options query.options,
            generate_embedding esvc query.content query.options⟩) := by
        unfold find_by_normalized
        rw [hq2]
        show scalarOne ((s.questions ++ [_]).filter _) = _
        rw [List.filter_append, hfilter, List.nil_append]
        rw [List.filter_cons_of_pos (by simp)]
        rfl
      have hfq2 : find_question dist esvc s' query.content query.type
          query.options = .ok (some ⟨s.nextQ, query.content,
            normalize_text query.content, query.type, query.options,
            normalize_options query.options,
            generate_embedding esvc query.content query.options⟩) := by
        unfold find_question
        rw [hfn2, exceptBind_ok]
        rfl
      rw [hfq2, exceptBind_ok]
      dsimp only
      exact fold_replay hA' hQ' pairs s' hok hmatchP hkeyP hlastP rfl rfl rfl rfl
        (List.forall₂_same.mpr (fun x hx => ⟨hx, rfl, Or.inl rfl⟩))

/-- C7 counterexample: a successful answer carrying `text = []` defeats the
idempotence claim as stated.  The first run stores the row with `text = []`;
the second run's lookup tests `text IS NULL` (the empty list is falsy),
misses, inserts a second `Answer` row and repoints the cell — the store
differs after the second run. -/
theorem c7_counterexample :
    ((batch_save_answers (fun _ _ => 0) none ⟨[], [], [], 0, 0⟩
        ⟨"q", none, some 2⟩
        [(⟨"prov", some 0, none⟩,
          ⟨some "prov", some 2, none, none, some [], true, none, none⟩)]).map
      (fun s => s.answers.length)) = .ok 1 ∧
    (((batch_save_answers (fun _ _ => 0) none ⟨[], [], [], 0, 0⟩
        ⟨"q", none, some 2⟩
        [(⟨"prov", some 0, none⟩,
          ⟨some "prov", some 2, none, none, some [], true, none, none⟩)]).bind
      (fun s1 => batch_save_answers (fun _ _ => 0) none s1
        ⟨"q", none, some 2⟩
        [(⟨"prov", some 0, none⟩,
          ⟨some "prov", some 2, none, none, some [], true, none, none⟩)])).map
      (fun s => s.answers.length)) = .ok 2 :=
  ⟨by decide, by decide⟩

/-- Witness for `c7_batch_save_idempotent`: a single well-formed pair saved
into the empty store; the second run reproduces the first run's store
exactly. -/
theorem c7_witness :
    batch_save_answers (fun _ _ => 0) none ⟨[], [], [], 0, 0⟩
        ⟨"q", none, some 2⟩
        [(⟨"prov", some 0, none⟩,
          ⟨some "prov", some 2, none, none, some ["ans"], true, none, none⟩)] =
      .ok ⟨[⟨0, "q", "q", some 2, none, none, none⟩],
           [⟨0, some 2, none, none, some ["ans"]⟩], [⟨0, "prov", 0⟩], 1, 1⟩ ∧
    batch_save_answers (fun _ _ => 0) none
        ⟨[⟨0, "q", "q", some 2, none, none, none⟩],
         [⟨0, some 2, none, none, some ["ans"]⟩], [⟨0, "prov", 0⟩], 1, 1⟩
        ⟨"q", none, some 2⟩
        [(⟨"prov", some 0, none⟩,
          ⟨some "prov", some 2, none, none, some ["ans"], true, none, none⟩)] =
      .ok ⟨[⟨0, "q", "q", some 2, none, none, none⟩],
           [⟨0, some 2, none, none, some ["ans"]⟩], [⟨0, "prov", 0⟩], 1, 1⟩ :=
  ⟨by decide,
   @c7_batch_save_idempotent (fun _ _ => 0) none ⟨[], [], [], 0, 0⟩
     ⟨[⟨0, "q", "q", some 2, none, none, none⟩],
      [⟨0, some 2, none, none, some ["ans"]⟩], [⟨0, "prov", 0⟩], 1, 1⟩
     ⟨"q", none, some 2⟩
     [(⟨"prov", some 0, none⟩,
       ⟨some "prov", some 2, none, none, some ["ans"], true, none, none⟩)]
     List.Pairwise.nil List.Pairwise.nil
     (by
       intro pa hpa
       simp only [List.mem_singleton] at hpa
       subst hpa
       exact ⟨by simp, by simp⟩)
     (by decide)⟩

/-- Witness for `c5_normalize_text_keeps_word_chars` at `"a_b"`, whose
character `'a'` survives and is in the kept class. -/
theorem c5_witness :
    normalize_text "a_b" = ⟨(("a_b" : String).data.map Char.toLower).filter keptChar⟩ ∧
    keptChar 'a' = true :=
  ⟨(c5_normalize_text_keeps_word_chars "a_b").1,
   (c5_normalize_text_keeps_word_chars "a_b").2 'a' (by decide)⟩
